import Mathlib

/-!
Verification development for the otclient draw-pool batcher
(`src/client/drawpool.cpp`) and the tile coverage cache (`src/client/tile.h`).

The C++ code is shallowly embedded: geometry/state value types become Lean
structures, the stateful pool operations become explicit state-passing
functions `Pool → Pool`, and the two-phase `DrawPool::draw()` is modelled as
a function returning the next state together with a trace of framebuffer /
rasterization events.  Members of the `Pool`/`FramedPool` classes whose
definitions live in headers not shipped here (`pool.h`, `painter.h`) are
modelled from the spec and marked as such in their doc comments.
-/

namespace OT

/-- Geometry primitive modelled from the repo's `TPoint<int>`
(framework/util/point.h, not under src/): `isNull()` is `x==0 && y==0`. -/
structure Point where
  x : Int := 0
  y : Int := 0
deriving DecidableEq, Repr

/-- `TPoint::isNull`. -/
def Point.isNull (p : Point) : Bool :=
  decide (p.x = 0) && decide (p.y = 0)

/-- An arbitrary computable stand-in for `stdext::hash` on points; only its
determinism matters for the claims. -/
def Point.hashv (p : Point) : Nat :=
  2 * p.x.natAbs + 3 * p.y.natAbs + (if p.x < 0 then 1 else 0) + (if p.y < 0 then 5 else 0)

/-- Geometry primitive modelled from the repo's `TRect<int>`
(framework/util/rect.h, not under src/): the default rect is
`(0,0,-1,-1)`, `isEmpty()` is `x1 > x2 || y1 > y2` and `isValid()` is
`x1 <= x2 && y1 <= y2`. -/
structure Rect where
  x1 : Int := 0
  y1 : Int := 0
  x2 : Int := -1
  y2 : Int := -1
deriving DecidableEq, Repr

/-- `TRect::isEmpty`. -/
def Rect.isEmpty (r : Rect) : Bool :=
  decide (r.x2 < r.x1) || decide (r.y2 < r.y1)

/-- `TRect::isValid`. -/
def Rect.isValid (r : Rect) : Bool :=
  decide (r.x1 ≤ r.x2) && decide (r.y1 ≤ r.y2)

/-- Computable stand-in for `TRect::hash`. -/
def Rect.hashv (r : Rect) : Nat :=
  7 * r.x1.natAbs + 11 * r.y1.natAbs + 13 * r.x2.natAbs + 17 * r.y2.natAbs
    + (if r.x1 < 0 then 1 else 0) + (if r.y1 < 0 then 2 else 0)
    + (if r.x2 < 0 then 4 else 0) + (if r.y2 < 0 then 8 else 0)

/-- A texture resource handle as the batcher consumes it (spec §6): an
identifier (`getId`), an `isOpaque()` query (field `solid`) and a
`canSuperimposed()` query.  A `TexturePtr` is `Option Texture`. -/
structure Texture where
  tid : Nat
  solid : Bool
  canSuperimposed : Bool
deriving DecidableEq, Repr

/-- `Painter::PainterState` restricted to the fields the batcher reads
(painter.h is not under src/).  Modelled from the spec: two states are equal
(mergeable) under value equality of the batching-relevant fields — texture
identity, color, clip rect, composition mode, opacity, shader — which is the
derived structural equality here.  `opacity` is in per-mille (1000 models the
fully-opaque `1.f`), `color` is the rgba word (white = 0xFFFFFFFF) and
`compositionMode` 0 models `Painter::CompositionMode_Normal`. -/
structure PainterState where
  texture : Option Texture := none
  opacity : Nat := 1000
  color : Nat := 0xFFFFFFFF
  compositionMode : Nat := 0
  clipRect : Rect := {}
  shaderProgram : Option Nat := none
  alphaWriting : Bool := false
deriving DecidableEq, Repr

/-- `Pool::DrawMethodType`. -/
inductive DrawMethodType where
  | DRAW_FILLED_RECT
  | DRAW_REPEATED_FILLED_RECT
  | DRAW_TEXTURED_RECT
  | DRAW_REPEATED_TEXTURED_RECT
  | DRAW_REPEATED_TEXTURED_REPEATED_RECT
  | DRAW_UPSIDEDOWN_TEXTURED_RECT
  | DRAW_FILLED_TRIANGLE
  | DRAW_BOUNDING_RECT
deriving DecidableEq, Repr

/-- `Pool::DrawMethod`: destination/source rect pair, an original
destination point (`dest`), up to three points, an integer parameter and an
optional precomputed hash.  Defaults mirror the value-initialized C++
members. -/
structure DrawMethod where
  type : DrawMethodType
  rects : Rect × Rect := ({}, {})
  dest : Point := {}
  points : Point × Point × Point := ({}, {}, {})
  intValue : Int := 0
  hash : Nat := 0
deriving DecidableEq, Repr

/-- `Painter::DrawMode`. -/
inductive DrawMode where
  | TriangleStrip
  | Triangles
  | None
deriving DecidableEq, Repr

/-- `Pool::DrawObject`; the deferred action closure is abstracted to an
opaque identifier (only its presence matters to the batcher). -/
structure DrawObject where
  state : PainterState
  drawMode : DrawMode
  drawMethods : List DrawMethod
  action : Option Nat := none
deriving DecidableEq, Repr

/-- The `FramedPool`-only data, modelled from the spec (pool.h is not under
src/): `committed`/`running` are `m_status.first`/`m_status.second` (the
previous frame's committed content hash and this frame's rolling hash),
`autoUpdate` is `m_autoUpdate`, `dest`/`src` record where the framebuffer is
composited. -/
structure FramedData where
  committed : Nat := 0
  running : Nat := 0
  autoUpdate : Bool := false
  dest : Rect := {}
  src : Rect := {}
deriving DecidableEq, Repr

/-- A pool: ordered `m_objects`, the working `m_state`, the enabled flag,
`m_indexToStartSearching`, and the framed extension (`framed.isSome` models
`hasFrameBuffer()`). -/
structure Pool where
  objects : List DrawObject := []
  state : PainterState := {}
  enabled : Bool := true
  indexToStartSearching : Nat := 0
  framed : Option FramedData := none
deriving DecidableEq, Repr

/-- `Pool::hasFrameBuffer`. -/
def Pool.hasFrameBuffer (p : Pool) : Bool := p.framed.isSome

/-- Modelled from the spec: `FramedPool::hasModification()` — the cached
image is invalid (must be rebuilt) iff the running hash differs from the
committed one or the auto-update flag is set. -/
def hasModification (p : Pool) : Bool :=
  match p.framed with
  | some f => decide (f.committed ≠ f.running) || f.autoUpdate
  | none => false

/-- Modelled from the spec: `FramedPool::updateStatus()` promotes the
running hash to the committed one. -/
def updateStatus (p : Pool) : Pool :=
  match p.framed with
  | some f => { p with framed := some { f with committed := f.running } }
  | none => p

/-- Modelled from the spec: `FramedPool::resetCurrentStatus()` clears the
running (per-frame) hash accumulator. -/
def resetCurrentStatus (p : Pool) : Pool :=
  match p.framed with
  | some f => { p with framed := some { f with running := 0 } }
  | none => p

/-- Modelled from the spec: `DrawPool::use(pool)` resets the pool's working
state to a clean baseline and, when framed, resets the per-frame status. -/
def usePool (p : Pool) : Pool :=
  resetCurrentStatus { p with state := {} }

/-- `boost::hash_combine` on a 64-bit `size_t`:
`seed ^= h + 0x9e3779b9 + (seed << 6) + (seed >> 2)`. -/
def hashCombine (seed h : Nat) : Nat :=
  (seed ^^^ ((h + 0x9e3779b9 + seed * 64 + seed / 4) % 2 ^ 64)) % 2 ^ 64

/-- Stand-in for `HASH_INT = std::hash<size_t>` applied to the (possibly
negative) `intValue`. -/
def intHash (i : Int) : Nat :=
  2 * i.natAbs + (if i < 0 then 1 else 0)

/-- The hash value `DrawPool::updateHash` accumulates for one draw call:
the local `size_t hash = 0` folded, in code order, with each non-neutral
field (texture id; opacity when < 1.f; color when not white; composition
mode when not normal; clip rect when valid; the method's two rects when
valid; the three points when non-null; the int parameter when nonzero; the
precomputed method hash when supplied). -/
def hashContribution (st : PainterState) (m : DrawMethod) : Nat :=
  let h : Nat := 0
  let h := match st.texture with
    | some t => hashCombine h t.tid
    | none => h
  let h := if st.opacity < 1000 then hashCombine h st.opacity else h
  let h := if st.color ≠ 0xFFFFFFFF then hashCombine h st.color else h
  let h := if st.compositionMode ≠ 0 then hashCombine h st.compositionMode else h
  let h := if st.clipRect.isValid then hashCombine h st.clipRect.hashv else h
  let h := if m.rects.1.isValid then hashCombine h m.rects.1.hashv else h
  let h := if m.rects.2.isValid then hashCombine h m.rects.2.hashv else h
  let h := if m.points.1.isNull then h else hashCombine h m.points.1.hashv
  let h := if m.points.2.1.isNull then h else hashCombine h m.points.2.1.hashv
  let h := if m.points.2.2.isNull then h else hashCombine h m.points.2.2.hashv
  let h := if m.intValue ≠ 0 then hashCombine h (intHash m.intValue) else h
  let h := if m.hash ≠ 0 then hashCombine h m.hash else h
  h

/-- `DrawPool::updateHash(state, method)` acting on the current pool: a
no-op for a pool with no framebuffer; otherwise it forces the auto-update
flag when a shader program is bound and folds the call's contribution into
the running status hash (`m_status.second`). -/
def updateHash (st : PainterState) (m : DrawMethod) (p : Pool) : Pool :=
  match p.framed with
  | none => p
  | some f =>
    { p with
      framed := some
        { f with
          autoUpdate := if st.shaderProgram.isSome then true else f.autoUpdate
          running := hashCombine f.running (hashContribution st m) } }

/-- `state.texture->isOpaque()` under the model's totalization (the safety
claim shows the `none` arm is unreachable from the public entry points). -/
def texSolid : Option Texture → Bool
  | some t => t.solid
  | none => false

/-- `prevObj.state.texture->canSuperimposed()` under the model's
totalization. -/
def texSuper : Option Texture → Bool
  | some t => t.canSuperimposed
  | none => false

/-- The removal condition of the dedup scan inside `DrawPool::add`:
`prevMtd.dest == method.dest && ((sameState && prevMtd.rects.second ==
method.rects.second) || (state.texture->isOpaque() &&
prevObj.state.texture->canSuperimposed()))`. -/
def removeCond (st prevSt : PainterState) (sameState : Bool) (m pm : DrawMethod) : Bool :=
  decide (pm.dest = m.dest) &&
    ((sameState && decide (pm.rects.2 = m.rects.2)) ||
      (texSolid st.texture && texSuper prevSt.texture))

/-- The object-list transformation of `DrawPool::add`: when the list is
nonempty, the trailing object's methods are scanned (only when the new
method's dest point is non-null) and the first method matching
`removeCond` is erased; then the method is merged into the trailing object
(forcing `Triangles`) when its state equals the new state, else a new
object is appended. -/
def addObjects (st : PainterState) (m : DrawMethod) (dm : DrawMode)
    (l : List DrawObject) : List DrawObject :=
  match l.getLast? with
  | none => l ++ [⟨st, dm, [m], none⟩]
  | some prevObj =>
    let ss : Bool := decide (prevObj.state = st)
    let newMethods :=
      if m.dest.isNull then prevObj.drawMethods
      else prevObj.drawMethods.eraseP (removeCond st prevObj.state ss m)
    if prevObj.state = st then
      l.dropLast ++
        [{ prevObj with drawMode := DrawMode.Triangles, drawMethods := newMethods ++ [m] }]
    else
      l.dropLast ++ [{ prevObj with drawMethods := newMethods }, ⟨st, dm, [m], none⟩]

/-- `DrawPool::add(state, method, drawMode)` on the current pool. -/
def add (st : PainterState) (m : DrawMethod) (dm : DrawMode) (p : Pool) : Pool :=
  let q := updateHash st m p
  { q with objects := addObjects st m dm q.objects }

/-- The `std::find_if` + `push_back` of `DrawPool::addRepeated`: append the
method to the first object (in the searched suffix) whose state equals the
given one, or report failure. -/
def tryAppend (st : PainterState) (m : DrawMethod) :
    List DrawObject → Option (List DrawObject)
  | [] => none
  | o :: rest =>
    if o.state = st then
      some ({ o with drawMethods := o.drawMethods ++ [m] } :: rest)
    else
      (tryAppend st m rest).map (o :: ·)

/-- `DrawPool::addRepeated(state, method, drawMode)`: the search starts at
`m_indexToStartSearching - 1` (0 when the index is unset), appends to the
first state-equal object found there, else pushes a new object at the end
of the whole list. -/
def addRepeated (st : PainterState) (m : DrawMethod) (dm : DrawMode) (p : Pool) : Pool :=
  let q := updateHash st m p
  let start := if q.indexToStartSearching = 0 then 0 else q.indexToStartSearching - 1
  { q with
    objects :=
      match tryAppend st m (q.objects.drop start) with
      | some l2 => q.objects.take start ++ l2
      | none => q.objects ++ [⟨st, dm, [m], none⟩] }

/-- `DrawPool::generateState()`: copy the painter's current state, then
override clip rect, composition mode, opacity, alpha writing and shader
from the current pool's working state. -/
def generateState (painter : PainterState) (p : Pool) : PainterState :=
  { painter with
    clipRect := p.state.clipRect
    compositionMode := p.state.compositionMode
    opacity := p.state.opacity
    alphaWriting := p.state.alphaWriting
    shaderProgram := p.state.shaderProgram }

/-- The `DrawMethod` built by `DrawPool::addTexturedRect`. -/
def texturedRectMethod (dest src : Rect) (originalDest : Point) : DrawMethod :=
  { type := DrawMethodType.DRAW_TEXTURED_RECT, rects := (dest, src), dest := originalDest }

/-- `DrawPool::addTexturedRect(dest, texture, src, color, originalDest)`.
The `TexturePtr` argument is taken non-null (valid texture handles are a
caller precondition, spec §7). -/
def addTexturedRect (painter : PainterState) (dest : Rect) (tex : Texture) (src : Rect)
    (color : Nat) (originalDest : Point) (p : Pool) : Pool :=
  if dest.isEmpty || src.isEmpty then p
  else
    add { generateState painter p with color := color, texture := some tex }
      (texturedRectMethod dest src originalDest) DrawMode.TriangleStrip p

/-- The `DrawMethod` built by `DrawPool::addUpsideDownTexturedRect`. -/
def upsideDownMethod (dest src : Rect) : DrawMethod :=
  { type := DrawMethodType.DRAW_UPSIDEDOWN_TEXTURED_RECT, rects := (dest, src) }

/-- `DrawPool::addUpsideDownTexturedRect(dest, texture, src, color)`. -/
def addUpsideDownTexturedRect (painter : PainterState) (dest : Rect) (tex : Texture)
    (src : Rect) (color : Nat) (p : Pool) : Pool :=
  if dest.isEmpty || src.isEmpty then p
  else
    add { generateState painter p with color := color, texture := some tex }
      (upsideDownMethod dest src) DrawMode.TriangleStrip p

/-- The `DrawMethod` built by `DrawPool::addRepeatedTexturedRect`. -/
def repeatedTexturedMethod (dest src : Rect) : DrawMethod :=
  { type := DrawMethodType.DRAW_REPEATED_TEXTURED_RECT, rects := (dest, src) }

/-- `DrawPool::addRepeatedTexturedRect(dest, texture, src, color)`. -/
def addRepeatedTexturedRect (painter : PainterState) (dest : Rect) (tex : Texture)
    (src : Rect) (color : Nat) (p : Pool) : Pool :=
  if dest.isEmpty || src.isEmpty then p
  else
    addRepeated { generateState painter p with color := color, texture := some tex }
      (repeatedTexturedMethod dest src) DrawMode.Triangles p

/-- The `DrawMethod` built by `DrawPool::addRepeatedTexturedRepeatedRect`. -/
def repeatedTexturedRepeatedMethod (dest src : Rect) : DrawMethod :=
  { type := DrawMethodType.DRAW_REPEATED_TEXTURED_REPEATED_RECT, rects := (dest, src) }

/-- `DrawPool::addRepeatedTexturedRepeatedRect(dest, texture, src, color)`. -/
def addRepeatedTexturedRepeatedRect (painter : PainterState) (dest : Rect) (tex : Texture)
    (src : Rect) (color : Nat) (p : Pool) : Pool :=
  if dest.isEmpty || src.isEmpty then p
  else
    addRepeated { generateState painter p with color := color, texture := some tex }
      (repeatedTexturedRepeatedMethod dest src) DrawMode.Triangles p

/-- The `DrawMethod` built by `DrawPool::addRepeatedFilledRect`. -/
def repeatedFilledMethod (dest src : Rect) : DrawMethod :=
  { type := DrawMethodType.DRAW_REPEATED_FILLED_RECT, rects := (dest, src) }

/-- `DrawPool::addRepeatedFilledRect(dest, src, color)`. -/
def addRepeatedFilledRect (painter : PainterState) (dest src : Rect) (color : Nat)
    (p : Pool) : Pool :=
  if dest.isEmpty then p
  else
    addRepeated { generateState painter p with color := color }
      (repeatedFilledMethod dest src) DrawMode.Triangles p

/-- The `DrawMethod` built by `DrawPool::addFilledRect`. -/
def filledRectMethod (dest src : Rect) : DrawMethod :=
  { type := DrawMethodType.DRAW_FILLED_RECT, rects := (dest, src) }

/-- `DrawPool::addFilledRect(dest, src, color)`. -/
def addFilledRect (painter : PainterState) (dest src : Rect) (color : Nat) (p : Pool) : Pool :=
  if dest.isEmpty then p
  else
    add { generateState painter p with color := color }
      (filledRectMethod dest src) DrawMode.Triangles p

/-- The `DrawMethod` built by `DrawPool::addFilledTriangle`. -/
def filledTriangleMethod (a b c : Point) : DrawMethod :=
  { type := DrawMethodType.DRAW_FILLED_TRIANGLE, points := (a, b, c) }

/-- `DrawPool::addFilledTriangle(a, b, c, color)`. -/
def addFilledTriangle (painter : PainterState) (a b c : Point) (color : Nat) (p : Pool) : Pool :=
  if a = b ∨ a = c ∨ b = c then p
  else
    add { generateState painter p with color := color }
      (filledTriangleMethod a b c) DrawMode.Triangles p

/-- The `DrawMethod` built by `DrawPool::addBoundingRect`. -/
def boundingRectMethod (dest : Rect) (innerLineWidth : Int) : DrawMethod :=
  { type := DrawMethodType.DRAW_BOUNDING_RECT, rects := (dest, {}), intValue := innerLineWidth }

/-- `DrawPool::addBoundingRect(dest, color, innerLineWidth)`. -/
def addBoundingRect (painter : PainterState) (dest : Rect) (color : Nat)
    (innerLineWidth : Int) (p : Pool) : Pool :=
  if dest.isEmpty || decide (innerLineWidth = 0) then p
  else
    add { generateState painter p with color := color }
      (boundingRectMethod dest innerLineWidth) DrawMode.Triangles p

/-- Observable side effects of `DrawPool::draw()`: binding/releasing a
framed pool's framebuffer, replaying an object into it, compositing the
cached framebuffer image, or drawing an object of a non-framed pool
directly.  The `Nat` is the pool's index in `m_pools`. -/
inductive DrawEvent where
  | fbBind (i : Nat)
  | replay (i : Nat) (o : DrawObject)
  | fbRelease (i : Nat)
  | composite (i : Nat) (dest src : Rect)
  | direct (i : Nat) (o : DrawObject)
deriving DecidableEq, Repr

/-- Phase 1 (pre-draw) of `DrawPool::draw()` for one pool: skip unless
enabled and framed; when `hasModification()`, recompute the status and —
only if there are pending objects — bind the framebuffer, replay every
object into it and release it. -/
def predrawPool (i : Nat) (p : Pool) : Pool × List DrawEvent :=
  if p.enabled && p.hasFrameBuffer then
    if hasModification p then
      let q := updateStatus p
      if q.objects.isEmpty then (q, [])
      else (q, DrawEvent.fbBind i :: (q.objects.map (DrawEvent.replay i) ++ [DrawEvent.fbRelease i]))
    else (p, [])
  else (p, [])

/-- Phase 2 (composite) of `DrawPool::draw()` for one pool: skip disabled
pools entirely (the `continue` also skips the clear); composite a framed
pool's framebuffer at its recorded dest/src, or replay a non-framed pool's
objects directly; then clear the object list. -/
def compositePool (i : Nat) (p : Pool) : Pool × List DrawEvent :=
  if p.enabled then
    match p.framed with
    | some f => ({ p with objects := [] }, [DrawEvent.composite i f.dest f.src])
    | none => ({ p with objects := [] }, p.objects.map (DrawEvent.direct i))
  else (p, [])

/-- `DrawPool::draw()`: phase 1 across all pools in order, then phase 2
across all pools in order; returns the updated pools and the event trace. -/
def drawAll (pools : List Pool) : List Pool × List DrawEvent :=
  let s1 := pools.enum.map (fun x => predrawPool x.1 x.2)
  let pools1 := s1.map Prod.fst
  let ev1 := s1.foldr (fun x acc => x.2 ++ acc) []
  let s2 := pools1.enum.map (fun x => compositePool x.1 x.2)
  (s2.map Prod.fst, ev1 ++ s2.foldr (fun x acc => x.2 ++ acc) [])

/-- One accumulation call into a pool, at the granularity the content-hash
claims speak about: a `DrawPool::add` or `DrawPool::addRepeated` with an
explicit state, method and draw mode. -/
inductive PoolCall where
  | add (st : PainterState) (m : DrawMethod) (dm : DrawMode)
  | addRepeated (st : PainterState) (m : DrawMethod) (dm : DrawMode)
deriving DecidableEq, Repr

/-- The `PainterState` carried by a call. -/
def PoolCall.stateOf : PoolCall → PainterState
  | .add st _ _ => st
  | .addRepeated st _ _ => st

/-- The `DrawMethod` carried by a call. -/
def PoolCall.methodOf : PoolCall → DrawMethod
  | .add _ m _ => m
  | .addRepeated _ m _ => m

/-- Execute one accumulation call on a pool. -/
def applyPoolCall (c : PoolCall) (p : Pool) : Pool :=
  match c with
  | .add st m dm => add st m dm p
  | .addRepeated st m dm => addRepeated st m dm p

/-- One frame of a single pool `i`: `use` it (resetting the per-frame
status), run the frame's accumulation calls, then the pool's share of the
two `draw()` phases.  Returns the pool going into the next frame and this
pool's slice of the frame's event trace. -/
def frameStep (i : Nat) (calls : List PoolCall) (p : Pool) : Pool × List DrawEvent :=
  let p1 := calls.foldl (fun q c => applyPoolCall c q) (usePool p)
  let r1 := predrawPool i p1
  let r2 := compositePool i r1.1
  (r2.1, r1.2 ++ r2.2)

/-- The hash a frame's calls accumulate into a framed pool's running
status, starting from the cleared accumulator. -/
def hashOfCalls (calls : List PoolCall) : Nat :=
  calls.foldl (fun h c => hashCombine h (hashContribution c.stateOf c.methodOf)) 0

/-- Whether any call of the frame carries a bound shader program. -/
def anyShader (calls : List PoolCall) : Bool :=
  calls.any (fun c => c.stateOf.shaderProgram.isSome)

/-! ### Tile: the completely-covered cache (`src/client/tile.h`) -/

/-- The slice of `Tile` that `setCompletelyCoveredCache` touches: the
per-floor `m_completelyCoveredCache` array (entry 0 is the uncomputed
sentinel) and `m_currentFirstVisibleFloor` (255 = `UINT8_MAX` = unset). -/
structure TileCov where
  completelyCoveredCache : List Nat
  currentFirstVisibleFloor : Nat := 255
deriving DecidableEq, Repr

/-- `Tile::setCompletelyCoveredCache(state)`: state 0 fills the whole cache
with 0; otherwise the entry at the current first visible floor is written,
unless that floor is the `UINT8_MAX` sentinel. -/
def setCompletelyCoveredCache (state : Nat) (t : TileCov) : TileCov :=
  if state = 0 then
    { t with completelyCoveredCache := List.replicate t.completelyCoveredCache.length 0 }
  else if t.currentFirstVisibleFloor ≠ 255 then
    { t with
      completelyCoveredCache :=
        t.completelyCoveredCache.set t.currentFirstVisibleFloor state }
  else t

/-! ### Safety instrumentation for the dedup scan's texture dereferences -/

/-- Replays the dedup loop of `DrawPool::add` with C++ evaluation order and
reports whether `state.texture->isOpaque()` or
`prevObj.state.texture->canSuperimposed()` would be evaluated with the
respective texture null.  `stTex` is the new state's texture, `prevTex` the
trailing object's. -/
def scanDeref (stTex prevTex : Option Texture) (sameState : Bool) (m : DrawMethod) :
    List DrawMethod → Bool
  | [] => false
  | pm :: rest =>
    if pm.dest = m.dest then
      if sameState && decide (pm.rects.2 = m.rects.2) then false
      else
        match stTex with
        | none => true
        | some t =>
          if t.solid then
            match prevTex with
            | none => true
            | some pt =>
              if pt.canSuperimposed then false
              else scanDeref stTex prevTex sameState m rest
          else scanDeref stTex prevTex sameState m rest
    else scanDeref stTex prevTex sameState m rest

/-- Whether `DrawPool::add(st, m, _)` on pool `p` would dereference a null
texture inside its dedup scan. -/
def addDerefNull (st : PainterState) (m : DrawMethod) (p : Pool) : Bool :=
  match p.objects.getLast? with
  | none => false
  | some prevObj =>
    if m.dest.isNull then false
    else scanDeref st.texture prevObj.state.texture (decide (prevObj.state = st)) m
      prevObj.drawMethods

/-- One invocation of a public `add*` entry point, with the painter state
in effect at the call. -/
inductive ApiCall where
  | texturedRect (painter : PainterState) (dest : Rect) (tex : Texture) (src : Rect)
      (color : Nat) (originalDest : Point)
  | upsideDownTexturedRect (painter : PainterState) (dest : Rect) (tex : Texture)
      (src : Rect) (color : Nat)
  | repeatedTexturedRect (painter : PainterState) (dest : Rect) (tex : Texture)
      (src : Rect) (color : Nat)
  | repeatedTexturedRepeatedRect (painter : PainterState) (dest : Rect) (tex : Texture)
      (src : Rect) (color : Nat)
  | filledRect (painter : PainterState) (dest src : Rect) (color : Nat)
  | repeatedFilledRect (painter : PainterState) (dest src : Rect) (color : Nat)
  | filledTriangle (painter : PainterState) (a b c : Point) (color : Nat)
  | boundingRect (painter : PainterState) (dest : Rect) (color : Nat) (innerLineWidth : Int)

/-- Execute a public entry point on the current pool. -/
def applyApi (c : ApiCall) (p : Pool) : Pool :=
  match c with
  | .texturedRect painter dest tex src color od => addTexturedRect painter dest tex src color od p
  | .upsideDownTexturedRect painter dest tex src color =>
      addUpsideDownTexturedRect painter dest tex src color p
  | .repeatedTexturedRect painter dest tex src color =>
      addRepeatedTexturedRect painter dest tex src color p
  | .repeatedTexturedRepeatedRect painter dest tex src color =>
      addRepeatedTexturedRepeatedRect painter dest tex src color p
  | .filledRect painter dest src color => addFilledRect painter dest src color p
  | .repeatedFilledRect painter dest src color => addRepeatedFilledRect painter dest src color p
  | .filledTriangle painter a b c color => addFilledTriangle painter a b c color p
  | .boundingRect painter dest color w => addBoundingRect painter dest color w p

/-- Whether executing the entry point on pool `p` would dereference a null
texture in the dedup scan (`addRepeated` has no such scan, and a guarded
degenerate input never reaches `add`). -/
def apiDerefNull (c : ApiCall) (p : Pool) : Bool :=
  match c with
  | .texturedRect painter dest tex src color od =>
    if dest.isEmpty || src.isEmpty then false
    else addDerefNull { generateState painter p with color := color, texture := some tex }
      (texturedRectMethod dest src od) p
  | .upsideDownTexturedRect painter dest tex src color =>
    if dest.isEmpty || src.isEmpty then false
    else addDerefNull { generateState painter p with color := color, texture := some tex }
      (upsideDownMethod dest src) p
  | .repeatedTexturedRect _ _ _ _ _ => false
  | .repeatedTexturedRepeatedRect _ _ _ _ _ => false
  | .filledRect painter dest src color =>
    if dest.isEmpty then false
    else addDerefNull { generateState painter p with color := color }
      (filledRectMethod dest src) p
  | .repeatedFilledRect _ _ _ _ => false
  | .filledTriangle painter a b c color =>
    if a = b ∨ a = c ∨ b = c then false
    else addDerefNull { generateState painter p with color := color }
      (filledTriangleMethod a b c) p
  | .boundingRect painter dest color w =>
    if dest.isEmpty || decide (w = 0) then false
    else addDerefNull { generateState painter p with color := color }
      (boundingRectMethod dest w) p

/-- Pools populated only through the public `add*` entry points, starting
from any pool whose object list is (still) empty. -/
inductive Reachable : Pool → Prop where
  | base (p : Pool) : p.objects = [] → Reachable p
  | step {p : Pool} (c : ApiCall) : Reachable p → Reachable (applyApi c p)

/-- The structural invariant behind the safety claim: any object holding a
method with a non-null dest point carries a non-null texture in its state. -/
def TexInv (l : List DrawObject) : Prop :=
  ∀ o ∈ l, (∃ mm ∈ o.drawMethods, mm.dest.isNull = false) → o.state.texture.isSome = true

/-! ### Spec-side description of the content hash (for the refinement claim) -/

/-- Modelled from the spec's words, for comparison against the code-derived
`hashContribution`: the list of optional hash-fold inputs in the spec's
stated order — texture id, opacity below 1, non-white color, non-normal
composition mode, valid clip rect, valid dest/src rects, non-null points,
nonzero int parameter, supplied method hash. -/
def specFieldList (st : PainterState) (m : DrawMethod) : List (Option Nat) :=
  [ st.texture.map (fun t => t.tid),
    if st.opacity < 1000 then some st.opacity else none,
    if st.color ≠ 0xFFFFFFFF then some st.color else none,
    if st.compositionMode ≠ 0 then some st.compositionMode else none,
    if st.clipRect.isValid then some st.clipRect.hashv else none,
    if m.rects.1.isValid then some m.rects.1.hashv else none,
    if m.rects.2.isValid then some m.rects.2.hashv else none,
    if m.points.1.isNull then none else some m.points.1.hashv,
    if m.points.2.1.isNull then none else some m.points.2.1.hashv,
    if m.points.2.2.isNull then none else some m.points.2.2.hashv,
    if m.intValue ≠ 0 then some (intHash m.intValue) else none,
    if m.hash ≠ 0 then some m.hash else none ]

/-- Fold one optional field into the hash. -/
def foldOpt (h : Nat) (o : Option Nat) : Nat :=
  match o with
  | some v => hashCombine h v
  | none => h

/-- The spec-described hash of one draw call: fold the non-neutral fields
in order, starting from 0. -/
def specHashFold (st : PainterState) (m : DrawMethod) : Nat :=
  (specFieldList st m).foldl foldOpt 0

/-- The auto-update flag of a pool (false for non-framed pools). -/
def autoUpdateOf (p : Pool) : Bool :=
  match p.framed with
  | some f => f.autoUpdate
  | none => false

/-! ## Theorems -/

/-- Claim C10: `Tile::setCompletelyCoveredCache(state)` with state 0 resets
every per-floor entry of the completely-covered cache to the uncomputed
sentinel 0; with nonzero state it writes only the entry indexed by the
current first visible floor, leaving every other floor's entry unchanged;
and it changes nothing at all when the current first visible floor is the
`UINT8_MAX` (255) unset sentinel. -/
theorem claim_C10 :
    (∀ t : TileCov, ∀ j : Nat, j < t.completelyCoveredCache.length →
      (setCompletelyCoveredCache 0 t).completelyCoveredCache[j]? = some 0) ∧
    (∀ (t : TileCov) (s : Nat), s ≠ 0 → t.currentFirstVisibleFloor ≠ 255 →
      (∀ j, j ≠ t.currentFirstVisibleFloor →
        (setCompletelyCoveredCache s t).completelyCoveredCache[j]? =
          t.completelyCoveredCache[j]?) ∧
      (t.currentFirstVisibleFloor < t.completelyCoveredCache.length →
        (setCompletelyCoveredCache s t).completelyCoveredCache[t.currentFirstVisibleFloor]? =
          some s)) ∧
    (∀ (t : TileCov) (s : Nat), s ≠ 0 → t.currentFirstVisibleFloor = 255 →
      setCompletelyCoveredCache s t = t) := by
  refine ⟨?_, ?_, ?_⟩
  · intro t j hj
    simp [setCompletelyCoveredCache, List.getElem?_replicate, hj]
  · intro t s hs hfloor
    constructor
    · intro j hj
      simp [setCompletelyCoveredCache, hs, hfloor, List.getElem?_set_ne (Ne.symm hj)]
    · intro hlt
      simp [setCompletelyCoveredCache, hs, hfloor, List.getElem?_set_self hlt]
  · intro t s hs hfloor
    simp [setCompletelyCoveredCache, hs, hfloor]

/-- Witness for C10 at a concrete tile (cache of length 16, floor 3). -/
theorem claim_C10_witness :
    (setCompletelyCoveredCache 0
        ⟨[9, 9, 9, 9, 9, 9, 9, 9, 9, 9, 9, 9, 9, 9, 9, 9], 3⟩).completelyCoveredCache[5]? =
      some 0 ∧
    (setCompletelyCoveredCache 2
        ⟨[9, 9, 9, 9, 9, 9, 9, 9, 9, 9, 9, 9, 9, 9, 9, 9], 3⟩).completelyCoveredCache[5]? =
      (⟨[9, 9, 9, 9, 9, 9, 9, 9, 9, 9, 9, 9, 9, 9, 9, 9], 3⟩ :
        TileCov).completelyCoveredCache[5]? ∧
    (setCompletelyCoveredCache 2
        ⟨[9, 9, 9, 9, 9, 9, 9, 9, 9, 9, 9, 9, 9, 9, 9, 9], 3⟩).completelyCoveredCache[3]? =
      some 2 ∧
    setCompletelyCoveredCache 2 ⟨[9, 9], 255⟩ = ⟨[9, 9], 255⟩ := by
  refine ⟨?_, ?_, ?_, ?_⟩
  · exact claim_C10.1 ⟨[9, 9, 9, 9, 9, 9, 9, 9, 9, 9, 9, 9, 9, 9, 9, 9], 3⟩ 5 (by decide)
  · exact ((claim_C10.2.1 ⟨[9, 9, 9, 9, 9, 9, 9, 9, 9, 9, 9, 9, 9, 9, 9, 9], 3⟩ 2
      (by decide) (by decide)).1 5 (by decide))
  · exact ((claim_C10.2.1 ⟨[9, 9, 9, 9, 9, 9, 9, 9, 9, 9, 9, 9, 9, 9, 9, 9], 3⟩ 2
      (by decide) (by decide)).2 (by decide))
  · exact claim_C10.2.2 ⟨[9, 9], 255⟩ 2 (by decide) (by decide)

/-- A concrete framed pool with one pending object, used to evaluate the
degenerate-input no-ops. -/
def witnessPoolC5 : Pool :=
  { objects := [⟨{}, DrawMode.Triangles, [filledRectMethod { x2 := 1, y2 := 1 } {}], none⟩],
    framed := some {} }

/-- Claim C5: every public `add*` entry point silently absorbs degenerate
input — an empty destination or source rect for the textured variants, an
empty destination rect for the filled variants, coincident points for the
triangle, an empty rect or zero inner line width for the bounding rect —
returning with the current pool (its object list and its running content
hash included) exactly unchanged. -/
theorem claim_C5 :
    (∀ painter dest tex src color od p, (dest.isEmpty || src.isEmpty) = true →
      addTexturedRect painter dest tex src color od p = p) ∧
    (∀ painter dest tex src color p, (dest.isEmpty || src.isEmpty) = true →
      addUpsideDownTexturedRect painter dest tex src color p = p) ∧
    (∀ painter dest tex src color p, (dest.isEmpty || src.isEmpty) = true →
      addRepeatedTexturedRect painter dest tex src color p = p) ∧
    (∀ painter dest tex src color p, (dest.isEmpty || src.isEmpty) = true →
      addRepeatedTexturedRepeatedRect painter dest tex src color p = p) ∧
    (∀ painter dest src color p, dest.isEmpty = true →
      addFilledRect painter dest src color p = p) ∧
    (∀ painter dest src color p, dest.isEmpty = true →
      addRepeatedFilledRect painter dest src color p = p) ∧
    (∀ painter a b c color p, a = b ∨ a = c ∨ b = c →
      addFilledTriangle painter a b c color p = p) ∧
    (∀ painter dest color w p, (dest.isEmpty || decide (w = 0)) = true →
      addBoundingRect painter dest color w p = p) := by
  refine ⟨?_, ?_, ?_, ?_, ?_, ?_, ?_, ?_⟩
  · intro painter dest tex src color od p h
    simp [addTexturedRect, h]
  · intro painter dest tex src color p h
    simp [addUpsideDownTexturedRect, h]
  · intro painter dest tex src color p h
    simp [addRepeatedTexturedRect, h]
  · intro painter dest tex src color p h
    simp [addRepeatedTexturedRepeatedRect, h]
  · intro painter dest src color p h
    simp [addFilledRect, h]
  · intro painter dest src color p h
    simp [addRepeatedFilledRect, h]
  · intro painter a b c color p h
    simp [addFilledTriangle, h]
  · intro painter dest color w p h
    simp [addBoundingRect, h]

/-- Witness for C5: each entry point evaluated at a concrete degenerate
input on a concrete framed pool with one pending object. -/
theorem claim_C5_witness :
    addTexturedRect {} {} ⟨7, true, true⟩ { x2 := 3, y2 := 3 } 5 ⟨1, 1⟩ witnessPoolC5 =
        witnessPoolC5 ∧
    addUpsideDownTexturedRect {} { x2 := 3, y2 := 3 } ⟨7, true, true⟩ {} 5 witnessPoolC5 =
        witnessPoolC5 ∧
    addRepeatedTexturedRect {} {} ⟨7, true, true⟩ { x2 := 3, y2 := 3 } 5 witnessPoolC5 =
        witnessPoolC5 ∧
    addRepeatedTexturedRepeatedRect {} {} ⟨7, true, true⟩ { x2 := 3, y2 := 3 } 5
        witnessPoolC5 = witnessPoolC5 ∧
    addFilledRect {} {} {} 5 witnessPoolC5 = witnessPoolC5 ∧
    addRepeatedFilledRect {} {} {} 5 witnessPoolC5 = witnessPoolC5 ∧
    addFilledTriangle {} ⟨1, 1⟩ ⟨2, 2⟩ ⟨1, 1⟩ 5 witnessPoolC5 = witnessPoolC5 ∧
    addBoundingRect {} { x2 := 3, y2 := 3 } 5 0 witnessPoolC5 = witnessPoolC5 :=
  ⟨claim_C5.1 {} {} ⟨7, true, true⟩ { x2 := 3, y2 := 3 } 5 ⟨1, 1⟩ witnessPoolC5 (by decide),
   claim_C5.2.1 {} { x2 := 3, y2 := 3 } ⟨7, true, true⟩ {} 5 witnessPoolC5 (by decide),
   claim_C5.2.2.1 {} {} ⟨7, true, true⟩ { x2 := 3, y2 := 3 } 5 witnessPoolC5 (by decide),
   claim_C5.2.2.2.1 {} {} ⟨7, true, true⟩ { x2 := 3, y2 := 3 } 5 witnessPoolC5 (by decide),
   claim_C5.2.2.2.2.1 {} {} {} 5 witnessPoolC5 (by decide),
   claim_C5.2.2.2.2.2.1 {} {} {} 5 witnessPoolC5 (by decide),
   claim_C5.2.2.2.2.2.2.1 {} ⟨1, 1⟩ ⟨2, 2⟩ ⟨1, 1⟩ 5 witnessPoolC5 (by decide),
   claim_C5.2.2.2.2.2.2.2 {} { x2 := 3, y2 := 3 } 5 0 witnessPoolC5 (by decide)⟩

/-! ### Structural helper lemmas -/

theorem foldOpt_ite (c : Prop) [Decidable c] (h v : Nat) :
    foldOpt h (if c then some v else none) = if c then hashCombine h v else h := by
  split <;> rfl

theorem foldOpt_ite_flip (c : Prop) [Decidable c] (h v : Nat) :
    foldOpt h (if c then none else some v) = if c then h else hashCombine h v := by
  split <;> rfl

theorem foldOpt_some (h v : Nat) : foldOpt h (some v) = hashCombine h v := rfl

theorem foldOpt_none (h : Nat) : foldOpt h none = h := rfl

theorem updateHash_framed (st : PainterState) (m : DrawMethod) (p : Pool) :
    (updateHash st m p).framed =
      p.framed.map (fun f =>
        { f with
          autoUpdate := if st.shaderProgram.isSome then true else f.autoUpdate
          running := hashCombine f.running (hashContribution st m) }) := by
  cases h : p.framed <;> simp [updateHash, h]

theorem updateHash_objects (st : PainterState) (m : DrawMethod) (p : Pool) :
    (updateHash st m p).objects = p.objects := by
  cases h : p.framed <;> simp [updateHash, h]

theorem updateHash_enabled (st : PainterState) (m : DrawMethod) (p : Pool) :
    (updateHash st m p).enabled = p.enabled := by
  cases h : p.framed <;> simp [updateHash, h]

theorem updateHash_index (st : PainterState) (m : DrawMethod) (p : Pool) :
    (updateHash st m p).indexToStartSearching = p.indexToStartSearching := by
  cases h : p.framed <;> simp [updateHash, h]

theorem add_framed (st : PainterState) (m : DrawMethod) (dm : DrawMode) (p : Pool) :
    (add st m dm p).framed = (updateHash st m p).framed := rfl

theorem addRepeated_framed (st : PainterState) (m : DrawMethod) (dm : DrawMode) (p : Pool) :
    (addRepeated st m dm p).framed = (updateHash st m p).framed := rfl

theorem applyPoolCall_framed (c : PoolCall) (p : Pool) :
    (applyPoolCall c p).framed = (updateHash c.stateOf c.methodOf p).framed := by
  cases c <;> rfl

theorem updateStatus_framed_map (p : Pool) :
    (updateStatus p).framed = p.framed.map (fun f => { f with committed := f.running }) := by
  cases h : p.framed <;> simp [updateStatus, h]

theorem autoUpdate_updateStatus (p : Pool) : autoUpdateOf (updateStatus p) = autoUpdateOf p := by
  cases h : p.framed <;> simp [updateStatus, autoUpdateOf, h]

theorem autoUpdate_usePool (p : Pool) : autoUpdateOf (usePool p) = autoUpdateOf p := by
  cases h : p.framed <;> simp [usePool, resetCurrentStatus, autoUpdateOf, h]

theorem autoUpdate_applyPoolCall (c : PoolCall) (p : Pool) (h : autoUpdateOf p = true) :
    autoUpdateOf (applyPoolCall c p) = true := by
  cases hf : p.framed with
  | none => simp [autoUpdateOf, hf] at h
  | some f =>
    have hu := applyPoolCall_framed c p
    rw [updateHash_framed, hf] at hu
    simp [autoUpdateOf, hf] at h
    simp [autoUpdateOf, hu, h]

theorem autoUpdate_foldl (calls : List PoolCall) (p : Pool) (h : autoUpdateOf p = true) :
    autoUpdateOf (calls.foldl (fun q c => applyPoolCall c q) p) = true := by
  induction calls generalizing p with
  | nil => exact h
  | cons c rest ih => exact ih _ (autoUpdate_applyPoolCall c p h)

theorem autoUpdate_predraw (i : Nat) (p : Pool) :
    autoUpdateOf (predrawPool i p).1 = autoUpdateOf p := by
  unfold predrawPool
  split
  · split
    · dsimp only
      split
      · simp [autoUpdate_updateStatus]
      · simp [autoUpdate_updateStatus]
    · rfl
  · rfl

theorem autoUpdate_composite (i : Nat) (p : Pool) :
    autoUpdateOf (compositePool i p).1 = autoUpdateOf p := by
  unfold compositePool
  repeat' split
  all_goals simp [autoUpdateOf]

/-- A concrete non-neutral painter state for evaluating the hash fold. -/
def witnessStateC8 : PainterState :=
  { texture := some ⟨7, true, false⟩, opacity := 500, color := 0xFF00FF00,
    compositionMode := 2, clipRect := { x2 := 9, y2 := 9 } }

/-- A concrete method touching every hash field. -/
def witnessMethodC8 : DrawMethod :=
  { type := DrawMethodType.DRAW_BOUNDING_RECT, rects := ({ x2 := 3, y2 := 3 }, { x2 := 1, y2 := 1 }),
    dest := ⟨1, 2⟩, points := (⟨1, 0⟩, ⟨0, 2⟩, ⟨3, 3⟩), intValue := 4, hash := 11 }

/-- Claim C8: `updateHash` folds into the framed pool's running hash, in
this order and skipping fields at neutral values: texture id (only if a
texture is bound), opacity (only if below 1.0), color (only if not white),
composition mode (only if not normal), clip rect (only if valid), the
method's two rects and up to three points (each only if valid/non-null),
the integer parameter (only if nonzero), and the precomputed method hash
(only if supplied); and for a current pool with no framebuffer it returns
immediately and folds nothing. -/
theorem claim_C8 :
    (∀ st m p, p.framed = none → updateHash st m p = p) ∧
    (∀ st m, hashContribution st m = specHashFold st m) ∧
    (∀ st m p f, p.framed = some f →
      ∃ f2, (updateHash st m p).framed = some f2 ∧
        f2.running = hashCombine f.running (hashContribution st m) ∧
        f2.committed = f.committed) := by
  refine ⟨?_, ?_, ?_⟩
  · intro st m p h
    simp [updateHash, h]
  · intro st m
    cases htex : st.texture <;>
      simp only [hashContribution, htex, specHashFold, specFieldList, List.foldl_cons,
        List.foldl_nil, Option.map_none', Option.map_some', foldOpt_ite, foldOpt_ite_flip,
        foldOpt_some, foldOpt_none]
  · intro st m p f h
    refine ⟨{ f with
        autoUpdate := if st.shaderProgram.isSome then true else f.autoUpdate
        running := hashCombine f.running (hashContribution st m) }, ?_, rfl, rfl⟩
    simp [updateHash, h]

/-- Witness for C8 at a concrete state/method and pools. -/
theorem claim_C8_witness :
    updateHash witnessStateC8 witnessMethodC8 { enabled := true } = { enabled := true } ∧
    hashContribution witnessStateC8 witnessMethodC8 =
      specHashFold witnessStateC8 witnessMethodC8 ∧
    ∃ f2, (updateHash witnessStateC8 witnessMethodC8
        { framed := some { running := 5 } }).framed = some f2 ∧
      f2.running = hashCombine 5 (hashContribution witnessStateC8 witnessMethodC8) ∧
      f2.committed = 0 :=
  ⟨claim_C8.1 witnessStateC8 witnessMethodC8 { enabled := true } rfl,
   claim_C8.2.1 witnessStateC8 witnessMethodC8,
   claim_C8.2.2 witnessStateC8 witnessMethodC8 { framed := some { running := 5 } }
     { running := 5 } rfl⟩

/-- Claim C7: a bound shader program forces the framed pool's auto-update
flag on `add`/`addRepeated`, contributes nothing to the content hash, and
once auto-update is set `hasModification()` is true and the flag survives
every subsequent frame regardless of content. -/
theorem claim_C7 :
    (∀ st m dm p f, p.framed = some f → st.shaderProgram.isSome = true →
      autoUpdateOf (add st m dm p) = true ∧ autoUpdateOf (addRepeated st m dm p) = true) ∧
    (∀ st m, hashContribution st m = hashContribution { st with shaderProgram := none } m) ∧
    (∀ p f, p.framed = some f → f.autoUpdate = true →
      hasModification p = true ∧
      ∀ i calls, autoUpdateOf (frameStep i calls p).1 = true) := by
  refine ⟨?_, ?_, ?_⟩
  · intro st m dm p f hf hsh
    have hu := updateHash_framed st m p
    rw [hf] at hu
    constructor
    · rw [autoUpdateOf, add_framed, hu]
      simp [hsh]
    · rw [autoUpdateOf, addRepeated_framed, hu]
      simp [hsh]
  · intro st m
    rfl
  · intro p f hf haut
    constructor
    · simp [hasModification, hf, haut]
    · intro i calls
      have h1 : autoUpdateOf (usePool p) = true := by
        rw [autoUpdate_usePool]
        simp [autoUpdateOf, hf, haut]
      have h2 := autoUpdate_foldl calls (usePool p) h1
      show autoUpdateOf (compositePool i (predrawPool i _).1).1 = true
      rw [autoUpdate_composite, autoUpdate_predraw]
      exact h2

/-- Witness for C7 at a concrete shader-bearing call and framed pool. -/
theorem claim_C7_witness :
    autoUpdateOf (add { shaderProgram := some 1 } (filledRectMethod { x2 := 1, y2 := 1 } {})
        DrawMode.Triangles { framed := some {} }) = true ∧
    hashContribution { shaderProgram := some 1 } (filledRectMethod { x2 := 1, y2 := 1 } {}) =
      hashContribution {} (filledRectMethod { x2 := 1, y2 := 1 } {}) ∧
    hasModification { framed := some { autoUpdate := true } } = true ∧
    autoUpdateOf (frameStep 0 [] { framed := some { autoUpdate := true } }).1 = true :=
  ⟨(claim_C7.1 { shaderProgram := some 1 } (filledRectMethod { x2 := 1, y2 := 1 } {})
      DrawMode.Triangles { framed := some {} } {} rfl rfl).1,
   claim_C7.2.1 { shaderProgram := some 1 } (filledRectMethod { x2 := 1, y2 := 1 } {}),
   (claim_C7.2.2 { framed := some { autoUpdate := true } } { autoUpdate := true } rfl rfl).1,
   (claim_C7.2.2 { framed := some { autoUpdate := true } } { autoUpdate := true } rfl rfl).2 0 []⟩

/-- All methods of a pool's object list, in draw order. -/
def flatMethods (l : List DrawObject) : List DrawMethod :=
  (l.map (fun o => o.drawMethods)).flatten

/-- Total number of methods accumulated in a pool. -/
def methodCount (p : Pool) : Nat :=
  (flatMethods p.objects).length

theorem flatMethods_append (a b : List DrawObject) :
    flatMethods (a ++ b) = flatMethods a ++ flatMethods b := by
  simp [flatMethods]

/-- `addObjects` on a list with explicit last element. -/
theorem addObjects_concat (st : PainterState) (m : DrawMethod) (dm : DrawMode)
    (pre : List DrawObject) (prevObj : DrawObject) :
    addObjects st m dm (pre ++ [prevObj]) =
      (if prevObj.state = st then
        pre ++
          [{ prevObj with
              drawMode := DrawMode.Triangles
              drawMethods :=
                (if m.dest.isNull then prevObj.drawMethods
                  else prevObj.drawMethods.eraseP
                    (removeCond st prevObj.state (decide (prevObj.state = st)) m)) ++ [m] }]
      else
        pre ++
          [{ prevObj with
              drawMethods :=
                if m.dest.isNull then prevObj.drawMethods
                else prevObj.drawMethods.eraseP
                  (removeCond st prevObj.state (decide (prevObj.state = st)) m) },
            ⟨st, dm, [m], none⟩]) := by
  unfold addObjects
  rw [List.getLast?_concat]
  simp only [List.dropLast_concat]

/-- `add` never touches any object before the trailing one. -/
theorem add_objects_eq (st : PainterState) (m : DrawMethod) (dm : DrawMode) (p : Pool) :
    (add st m dm p).objects = addObjects st m dm p.objects := by
  show addObjects st m dm (updateHash st m p).objects = addObjects st m dm p.objects
  rw [updateHash_objects]

/-- Claim C3: when `add` is called on a non-empty pool with a method whose
dest point is non-null, and the trailing object holds a method matching the
removal condition (same dest and either same state + same source rect, or
new-texture-opaque and previous-texture-superimposable), that first
matching method is removed before the new method is appended — so the
pool's total method count is unchanged — and no object before the trailing
one is ever modified. -/
theorem claim_C3 :
    (∀ st m dm p pre prevObj,
      p.objects = pre ++ [prevObj] →
      m.dest.isNull = false →
      prevObj.drawMethods.any
          (removeCond st prevObj.state (decide (prevObj.state = st)) m) = true →
      flatMethods (add st m dm p).objects =
        flatMethods pre ++
          (prevObj.drawMethods.eraseP
              (removeCond st prevObj.state (decide (prevObj.state = st)) m) ++ [m]) ∧
      methodCount (add st m dm p) = methodCount p) ∧
    (∀ st m dm p, p.objects ≠ [] →
      (add st m dm p).objects.take (p.objects.length - 1) = p.objects.dropLast) := by
  constructor
  · intro st m dm p pre prevObj hobj hdest hany
    obtain ⟨mm, hmm, hpm⟩ := List.any_eq_true.mp hany
    have hlen : (prevObj.drawMethods.eraseP
        (removeCond st prevObj.state (decide (prevObj.state = st)) m)).length =
        prevObj.drawMethods.length - 1 := List.length_eraseP_of_mem hmm hpm
    have hpos : 0 < prevObj.drawMethods.length := List.length_pos.mpr (List.ne_nil_of_mem hmm)
    have hmain : flatMethods (add st m dm p).objects =
        flatMethods pre ++
          (prevObj.drawMethods.eraseP
              (removeCond st prevObj.state (decide (prevObj.state = st)) m) ++ [m]) := by
      rw [add_objects_eq, hobj, addObjects_concat]
      split
      · simp [flatMethods_append, flatMethods, hdest]
      · simp [flatMethods_append, flatMethods, hdest]
    refine ⟨hmain, ?_⟩
    rw [methodCount, hmain, methodCount, hobj, flatMethods_append]
    simp only [List.length_append, hlen, flatMethods, List.map_cons, List.map_nil,
      List.flatten_cons, List.flatten_nil, List.length_cons, List.length_nil,
      List.append_nil]
    omega
  · intro st m dm p hne
    have hobj : p.objects.dropLast ++ [p.objects.getLast hne] = p.objects :=
      List.dropLast_concat_getLast hne
    rw [add_objects_eq, ← hobj, addObjects_concat]
    have hlen : (p.objects.dropLast ++ [p.objects.getLast hne]).length - 1 =
        p.objects.dropLast.length := by
      simp
    rw [hlen, List.dropLast_concat]
    split
    · exact List.take_left _ _
    · exact List.take_left _ _

/-- State of the two overlapping textured rects in the C3 witness. -/
def witnessStateC3 : PainterState := { texture := some ⟨1, true, true⟩ }

/-- The new textured-rect method of the C3 witness (dest point (1,1)). -/
def witnessMethodC3 : DrawMethod :=
  texturedRectMethod { x2 := 5, y2 := 5 } { x2 := 3, y2 := 3 } ⟨1, 1⟩

/-- The previously accumulated method at the same dest point with the same
source rect. -/
def witnessMethodC3B : DrawMethod :=
  texturedRectMethod { x1 := 1, y1 := 1, x2 := 5, y2 := 5 } { x2 := 3, y2 := 3 } ⟨1, 1⟩

/-- The C3 witness pool: one trailing object holding the older method. -/
def witnessPoolC3 : Pool :=
  { objects := [⟨witnessStateC3, DrawMode.TriangleStrip, [witnessMethodC3B], none⟩] }

/-- Witness for C3: a second textured rect added over a first one at the
same dest point with the same state and source rect removes the first;
the pool's method count stays 1. -/
theorem claim_C3_witness :
    flatMethods (add witnessStateC3 witnessMethodC3 DrawMode.TriangleStrip
        witnessPoolC3).objects = [witnessMethodC3] ∧
    methodCount (add witnessStateC3 witnessMethodC3 DrawMode.TriangleStrip witnessPoolC3) =
      methodCount witnessPoolC3 := by
  have h := (claim_C3.1 witnessStateC3 witnessMethodC3 DrawMode.TriangleStrip witnessPoolC3
    [] ⟨witnessStateC3, DrawMode.TriangleStrip, [witnessMethodC3B], none⟩ rfl (by decide)
    (by decide))
  refine ⟨?_, h.2⟩
  rw [h.1]
  decide

theorem addObjects_nil (st : PainterState) (m : DrawMethod) (dm : DrawMode) :
    addObjects st m dm [] = [⟨st, dm, [m], none⟩] := rfl

/-- Claim C4: a sequence of `add` calls sharing one PainterState (with
distinct destinations, so the dedup removal never fires) yields exactly one
DrawObject holding every method in call order, its draw mode forced to
`Triangles` as soon as a second method merges; conversely two consecutive
`add` calls with different states produce two sibling DrawObjects. -/
theorem claim_C4 :
    (∀ st (calls : List (DrawMethod × DrawMode)) (p : Pool),
      p.objects = [] → calls ≠ [] →
      List.Pairwise (fun a b => b.1.dest.isNull = true ∨ ¬(a.1.dest = b.1.dest)) calls →
      ∃ dmode,
        (calls.foldl (fun q c => add st c.1 c.2 q) p).objects =
          [⟨st, dmode, calls.map Prod.fst, none⟩] ∧
        (2 ≤ calls.length → dmode = DrawMode.Triangles)) ∧
    (∀ st1 st2 m1 m2 dm1 dm2 (p : Pool), p.objects = [] → ¬(st1 = st2) →
      (add st2 m2 dm2 (add st1 m1 dm1 p)).objects.map (fun o => o.state) = [st1, st2]) := by
  constructor
  · intro st calls p hobj
    induction calls using List.reverseRecOn with
    | nil => intro hne _; exact absurd rfl hne
    | append_singleton l c ih =>
      intro _ hpw
      obtain ⟨hpwl, -, hrel⟩ := List.pairwise_append.mp hpw
      by_cases hl : l = []
      · subst hl
        refine ⟨c.2, ?_, ?_⟩
        · simp only [List.nil_append, List.foldl_cons, List.foldl_nil]
          rw [add_objects_eq, hobj, addObjects_nil]
          rfl
        · intro h2
          simp only [List.nil_append, List.length_cons, List.length_nil] at h2
          omega
      · obtain ⟨dmode, hobjs, -⟩ := ih hl hpwl
        refine ⟨DrawMode.Triangles, ?_, fun _ => rfl⟩
        rw [List.foldl_append]
        simp only [List.foldl_cons, List.foldl_nil]
        rw [add_objects_eq, hobjs,
          show [(⟨st, dmode, l.map Prod.fst, none⟩ : DrawObject)] =
            [] ++ [(⟨st, dmode, l.map Prod.fst, none⟩ : DrawObject)] from rfl,
          addObjects_concat]
        split
        · dsimp only
          have herase : (if c.1.dest.isNull then l.map Prod.fst
              else (l.map Prod.fst).eraseP (removeCond st st (decide (st = st)) c.1)) =
              l.map Prod.fst := by
            by_cases hnull : c.1.dest.isNull = true
            · rw [if_pos hnull]
            · rw [if_neg hnull]
              apply List.eraseP_of_forall_not
              intro a ha hpa
              obtain ⟨x, hx, rfl⟩ := List.mem_map.mp ha
              rcases hrel x hx c (List.mem_singleton.mpr rfl) with h | h
              · exact hnull h
              · apply h
                simp only [removeCond, Bool.and_eq_true, decide_eq_true_eq] at hpa
                exact hpa.1
          rw [herase]
          simp [List.map_append]
        · rename_i hfalse
          exact absurd rfl hfalse
  · intro st1 st2 m1 m2 dm1 dm2 p hobj hne
    have h1 : (add st1 m1 dm1 p).objects = [⟨st1, dm1, [m1], none⟩] := by
      rw [add_objects_eq, hobj, addObjects_nil]
    rw [add_objects_eq, h1,
      show [(⟨st1, dm1, [m1], none⟩ : DrawObject)] =
        [] ++ [(⟨st1, dm1, [m1], none⟩ : DrawObject)] from rfl,
      addObjects_concat]
    split
    · rename_i htrue
      exact absurd htrue hne
    · simp

/-- Witness for C4: three same-state filled rects at distinct destinations
merge into one triangles-mode object; two different-state adds produce two
sibling objects. -/
theorem claim_C4_witness :
    (∃ dmode,
      ([(filledRectMethod { x2 := 1, y2 := 1 } {}, DrawMode.Triangles),
        (filledRectMethod { x1 := 2, x2 := 3, y2 := 1 } {}, DrawMode.Triangles),
        (filledRectMethod { x1 := 4, x2 := 5, y2 := 1 } {}, DrawMode.Triangles)].foldl
          (fun q c => add witnessStateC3 c.1 c.2 q) ({} : Pool)).objects =
        [⟨witnessStateC3, dmode,
          [filledRectMethod { x2 := 1, y2 := 1 } {},
           filledRectMethod { x1 := 2, x2 := 3, y2 := 1 } {},
           filledRectMethod { x1 := 4, x2 := 5, y2 := 1 } {}], none⟩] ∧
        (2 ≤ 3 → dmode = DrawMode.Triangles)) ∧
    (add { color := 3 } (filledRectMethod { x2 := 1, y2 := 1 } {}) DrawMode.Triangles
        (add {} (filledRectMethod { x2 := 1, y2 := 1 } {}) DrawMode.Triangles
          ({} : Pool))).objects.map (fun o => o.state) = [{}, { color := 3 }] :=
  ⟨claim_C4.1 witnessStateC3
      [(filledRectMethod { x2 := 1, y2 := 1 } {}, DrawMode.Triangles),
       (filledRectMethod { x1 := 2, x2 := 3, y2 := 1 } {}, DrawMode.Triangles),
       (filledRectMethod { x1 := 4, x2 := 5, y2 := 1 } {}, DrawMode.Triangles)]
      ({} : Pool) rfl (by decide) (by decide),
   claim_C4.2 {} { color := 3 } (filledRectMethod { x2 := 1, y2 := 1 } {})
      (filledRectMethod { x2 := 1, y2 := 1 } {}) DrawMode.Triangles DrawMode.Triangles
      ({} : Pool) rfl (by decide)⟩

/-- The method lists of a pool's objects whose state equals `st`, in order. -/
def methodsForState (st : PainterState) (l : List DrawObject) : List (List DrawMethod) :=
  (l.filter (fun o => decide (o.state = st))).map (fun o => o.drawMethods)

theorem addRepeated_index (st : PainterState) (m : DrawMethod) (dm : DrawMode) (p : Pool) :
    (addRepeated st m dm p).indexToStartSearching = p.indexToStartSearching := by
  show (updateHash st m p).indexToStartSearching = p.indexToStartSearching
  exact updateHash_index st m p

/-- `addRepeated` with the search index unset scans the whole list. -/
theorem addRepeated_objects_zero (st : PainterState) (m : DrawMethod) (dm : DrawMode)
    (p : Pool) (hidx : p.indexToStartSearching = 0) :
    (addRepeated st m dm p).objects =
      match tryAppend st m p.objects with
      | some l2 => l2
      | none => p.objects ++ [⟨st, dm, [m], none⟩] := by
  show (match tryAppend st m ((updateHash st m p).objects.drop
      (if (updateHash st m p).indexToStartSearching = 0 then 0
        else (updateHash st m p).indexToStartSearching - 1)) with
    | some l2 => (updateHash st m p).objects.take
        (if (updateHash st m p).indexToStartSearching = 0 then 0
          else (updateHash st m p).indexToStartSearching - 1) ++ l2
    | none => (updateHash st m p).objects ++ ([⟨st, dm, [m], none⟩] : List DrawObject)) = _
  rw [updateHash_objects, updateHash_index, hidx]
  simp only [if_pos rfl, List.drop_zero, List.take_zero]
  cases h : tryAppend st m p.objects <;> simp [h]

theorem tryAppend_none_of_forall (st : PainterState) (m : DrawMethod) (l : List DrawObject)
    (h : ∀ o ∈ l, ¬(o.state = st)) : tryAppend st m l = none := by
  induction l with
  | nil => rfl
  | cons o rest ih =>
    simp only [tryAppend]
    rw [if_neg (h o (List.mem_cons_self o rest)), ih (fun x hx => h x (List.mem_cons_of_mem _ hx))]
    rfl

theorem methodsForState_nil_of (st : PainterState) (l : List DrawObject)
    (h : ∀ o ∈ l, ¬(o.state = st)) : methodsForState st l = [] := by
  simp only [methodsForState, List.map_eq_nil_iff, List.filter_eq_nil_iff]
  intro o ho
  simpa using h o ho

theorem methodsForState_append_ne (st : PainterState) (l : List DrawObject) (o : DrawObject)
    (h : ¬(o.state = st)) : methodsForState st (l ++ [o]) = methodsForState st l := by
  simp [methodsForState, List.filter_append, List.filter_cons, h]

theorem methodsForState_append_eq (st : PainterState) (l : List DrawObject) (o : DrawObject)
    (h : o.state = st) :
    methodsForState st (l ++ [o]) = methodsForState st l ++ [o.drawMethods] := by
  simp [methodsForState, List.filter_append, List.filter_cons, h]

/-- Appending a repeat into an object with a different state leaves the
`st`-filtered view unchanged. -/
theorem methodsForState_tryAppend_ne (st st' : PainterState) (m' : DrawMethod)
    (hne : ¬(st' = st)) :
    ∀ l l2, tryAppend st' m' l = some l2 → methodsForState st l2 = methodsForState st l := by
  intro l
  induction l with
  | nil => intro l2 h; simp [tryAppend] at h
  | cons o rest ih =>
    intro l2 h
    simp only [tryAppend] at h
    by_cases ho : o.state = st'
    · rw [if_pos ho] at h
      have hl2 := (Option.some.injEq _ _).mp h
      subst hl2
      have hos : ¬(o.state = st) := fun hc => hne (ho.symm.trans hc)
      simp [methodsForState, List.filter_cons, hos]
    · rw [if_neg ho] at h
      obtain ⟨l2', h2, rfl⟩ := Option.map_eq_some'.mp h
      have hrec := ih l2' h2
      by_cases hos : o.state = st
      · have hcons1 : methodsForState st (o :: l2') =
            o.drawMethods :: methodsForState st l2' := by
          simp [methodsForState, List.filter_cons, hos]
        have hcons2 : methodsForState st (o :: rest) =
            o.drawMethods :: methodsForState st rest := by
          simp [methodsForState, List.filter_cons, hos]
        rw [hcons1, hcons2, hrec]
      · have hcons1 : methodsForState st (o :: l2') = methodsForState st l2' := by
          simp [methodsForState, List.filter_cons, hos]
        have hcons2 : methodsForState st (o :: rest) = methodsForState st rest := by
          simp [methodsForState, List.filter_cons, hos]
        rw [hcons1, hcons2, hrec]

/-- When exactly one object matches `st` and it holds `[m1]`, the repeat
search finds it and appends there. -/
theorem tryAppend_unique (st : PainterState) (m2 : DrawMethod) :
    ∀ (l : List DrawObject) (m1 : DrawMethod), methodsForState st l = [[m1]] →
      ∃ l2, tryAppend st m2 l = some l2 ∧ methodsForState st l2 = [[m1, m2]] := by
  intro l
  induction l with
  | nil => intro m1 h; simp [methodsForState] at h
  | cons o rest ih =>
    intro m1 h
    by_cases ho : o.state = st
    · have hfo : methodsForState st (o :: rest) = o.drawMethods :: methodsForState st rest := by
        simp [methodsForState, List.filter_cons, ho]
      rw [hfo] at h
      have h1 : o.drawMethods = [m1] := (List.cons.injEq _ _ _ _).mp h |>.1
      have h2 : methodsForState st rest = [] := (List.cons.injEq _ _ _ _).mp h |>.2
      refine ⟨{ o with drawMethods := o.drawMethods ++ [m2] } :: rest, ?_, ?_⟩
      · simp [tryAppend, ho]
      · have hcons : methodsForState st ({ o with drawMethods := o.drawMethods ++ [m2] } :: rest) =
            (o.drawMethods ++ [m2]) :: methodsForState st rest := by
          simp [methodsForState, List.filter_cons, ho]
        rw [hcons, h1, h2]
        rfl
    · have hfo : methodsForState st (o :: rest) = methodsForState st rest := by
        simp [methodsForState, List.filter_cons, ho]
      rw [hfo] at h
      obtain ⟨l2', h2, h3⟩ := ih m1 h
      refine ⟨o :: l2', ?_, ?_⟩
      · simp [tryAppend, ho, h2]
      · have : methodsForState st (o :: l2') = methodsForState st l2' := by
          simp [methodsForState, List.filter_cons, ho]
        rw [this, h3]

/-- The interleaved non-matching repeats preserve the `st`-filtered view
and the unset search index. -/
theorem c6_middle (st : PainterState)
    (others : List (PainterState × DrawMethod × DrawMode)) :
    ∀ (q : Pool) (M : List (List DrawMethod)), (∀ x ∈ others, ¬(x.1 = st)) →
      q.indexToStartSearching = 0 → methodsForState st q.objects = M →
      (others.foldl (fun r x => addRepeated x.1 x.2.1 x.2.2 r) q).indexToStartSearching = 0 ∧
      methodsForState st
        (others.foldl (fun r x => addRepeated x.1 x.2.1 x.2.2 r) q).objects = M := by
  induction others with
  | nil => intro q M _ hidx hM; exact ⟨hidx, hM⟩
  | cons x rest ih =>
    intro q M hne hidx hM
    simp only [List.foldl_cons]
    apply ih
    · intro y hy; exact hne y (List.mem_cons_of_mem _ hy)
    · rw [addRepeated_index]; exact hidx
    · rw [addRepeated_objects_zero _ _ _ _ hidx]
      have hx : ¬(x.1 = st) := hne x (List.mem_cons_self _ _)
      cases h : tryAppend x.1 x.2.1 q.objects with
      | some l2 =>
        rw [methodsForState_tryAppend_ne st x.1 x.2.1 hx q.objects l2 h]
        exact hM
      | none =>
        rw [methodsForState_append_ne st q.objects ⟨x.1, x.2.2, [x.2.1], none⟩ hx]
        exact hM

/-- Claim C6: `addRepeated` searches from the remembered start index (the
whole list when the index is unset) for the first object with an equal
state and appends the method there, else appends a new object; hence two
`addRepeated` calls with identical state and different destinations yield
one DrawObject with both methods, no matter how many non-matching objects
were added between them. -/
theorem claim_C6 :
    ∀ (st : PainterState) (m1 m2 : DrawMethod) (dm1 dm2 : DrawMode)
      (others : List (PainterState × DrawMethod × DrawMode)) (p : Pool),
      p.indexToStartSearching = 0 →
      (∀ o ∈ p.objects, ¬(o.state = st)) →
      (∀ x ∈ others, ¬(x.1 = st)) →
      methodsForState st
        (addRepeated st m2 dm2
          (others.foldl (fun r x => addRepeated x.1 x.2.1 x.2.2 r)
            (addRepeated st m1 dm1 p))).objects = [[m1, m2]] := by
  intro st m1 m2 dm1 dm2 others p hidx hobj hothers
  have h1objs : (addRepeated st m1 dm1 p).objects = p.objects ++ [⟨st, dm1, [m1], none⟩] := by
    rw [addRepeated_objects_zero _ _ _ _ hidx, tryAppend_none_of_forall st m1 p.objects hobj]
  have h1idx : (addRepeated st m1 dm1 p).indexToStartSearching = 0 := by
    rw [addRepeated_index]; exact hidx
  have h1M : methodsForState st (addRepeated st m1 dm1 p).objects = [[m1]] := by
    rw [h1objs, methodsForState_append_eq st p.objects ⟨st, dm1, [m1], none⟩ rfl,
      methodsForState_nil_of st p.objects hobj]
    rfl
  obtain ⟨hmidIdx, hmidM⟩ := c6_middle st others (addRepeated st m1 dm1 p) [[m1]]
    hothers h1idx h1M
  obtain ⟨l2, hfind, hl2⟩ := tryAppend_unique st m2 _ m1 hmidM
  rw [addRepeated_objects_zero _ _ _ _ hmidIdx, hfind]
  exact hl2

/-- Witness for C6: two same-state repeats separated by two non-matching
repeats end in a single object holding both methods. -/
theorem claim_C6_witness :
    methodsForState { color := 1 }
      (addRepeated { color := 1 } (repeatedFilledMethod { x1 := 6, x2 := 7, y2 := 1 } {})
        DrawMode.Triangles
        ([({ color := 2 }, repeatedFilledMethod { x1 := 2, x2 := 3, y2 := 1 } {},
            DrawMode.Triangles),
          ({ color := 3 }, repeatedFilledMethod { x1 := 4, x2 := 5, y2 := 1 } {},
            DrawMode.Triangles)].foldl
          (fun r x => addRepeated x.1 x.2.1 x.2.2 r)
          (addRepeated { color := 1 } (repeatedFilledMethod { x2 := 1, y2 := 1 } {})
            DrawMode.Triangles ({} : Pool)))).objects =
      [[repeatedFilledMethod { x2 := 1, y2 := 1 } {},
        repeatedFilledMethod { x1 := 6, x2 := 7, y2 := 1 } {}]] :=
  claim_C6 { color := 1 } (repeatedFilledMethod { x2 := 1, y2 := 1 } {})
    (repeatedFilledMethod { x1 := 6, x2 := 7, y2 := 1 } {}) DrawMode.Triangles
    DrawMode.Triangles
    [({ color := 2 }, repeatedFilledMethod { x1 := 2, x2 := 3, y2 := 1 } {},
        DrawMode.Triangles),
      ({ color := 3 }, repeatedFilledMethod { x1 := 4, x2 := 5, y2 := 1 } {},
        DrawMode.Triangles)]
    ({} : Pool) rfl (by simp) (by decide)

/-! ### Enabled/framed preservation across the frame cycle -/

theorem usePool_enabled (p : Pool) : (usePool p).enabled = p.enabled := by
  cases h : p.framed <;> simp [usePool, resetCurrentStatus, h]

theorem applyPoolCall_enabled (c : PoolCall) (p : Pool) :
    (applyPoolCall c p).enabled = p.enabled := by
  cases c with
  | add st m dm => exact updateHash_enabled st m p
  | addRepeated st m dm => exact updateHash_enabled st m p

theorem foldl_calls_enabled (calls : List PoolCall) :
    ∀ p : Pool, (calls.foldl (fun q c => applyPoolCall c q) p).enabled = p.enabled := by
  induction calls with
  | nil => intro p; rfl
  | cons c rest ih =>
    intro p
    simp only [List.foldl_cons]
    rw [ih, applyPoolCall_enabled]

theorem enabled_updateStatus (p : Pool) : (updateStatus p).enabled = p.enabled := by
  cases h : p.framed <;> simp [updateStatus, h]

theorem enabled_predraw (i : Nat) (p : Pool) : (predrawPool i p).1.enabled = p.enabled := by
  unfold predrawPool
  split
  · split
    · dsimp only
      split
      · exact enabled_updateStatus p
      · exact enabled_updateStatus p
    · rfl
  · rfl

theorem enabled_composite (i : Nat) (p : Pool) : (compositePool i p).1.enabled = p.enabled := by
  unfold compositePool
  split
  · split <;> rfl
  · rfl

theorem frameStep_enabled (i : Nat) (calls : List PoolCall) (p : Pool) :
    (frameStep i calls p).1.enabled = p.enabled := by
  show (compositePool i (predrawPool i _).1).1.enabled = p.enabled
  rw [enabled_composite, enabled_predraw, foldl_calls_enabled, usePool_enabled]

theorem composite_fst_framed (i : Nat) (p : Pool) :
    (compositePool i p).1.framed = p.framed := by
  unfold compositePool
  split
  · split <;> rfl
  · rfl

theorem anyShader_eq_false (calls : List PoolCall)
    (h : ∀ c ∈ calls, c.stateOf.shaderProgram = none) : anyShader calls = false := by
  rw [anyShader, List.any_eq_false]
  intro c hc
  simp [h c hc]

/-- Hash/auto-update evolution of a framed pool across a frame's calls. -/
theorem foldl_calls_framed (calls : List PoolCall) :
    ∀ (p : Pool) (f : FramedData), p.framed = some f →
      (calls.foldl (fun q c => applyPoolCall c q) p).framed =
        some { f with
          running := calls.foldl
            (fun h c => hashCombine h (hashContribution c.stateOf c.methodOf)) f.running
          autoUpdate := f.autoUpdate || anyShader calls } := by
  induction calls with
  | nil =>
    intro p f h
    simpa [anyShader] using h
  | cons c rest ih =>
    intro p f h
    simp only [List.foldl_cons]
    have hstep : (applyPoolCall c p).framed =
        some { f with
          autoUpdate := if c.stateOf.shaderProgram.isSome then true else f.autoUpdate
          running := hashCombine f.running (hashContribution c.stateOf c.methodOf) } := by
      rw [applyPoolCall_framed, updateHash_framed, h]
      rfl
    rw [ih _ _ hstep]
    have hb : ((if c.stateOf.shaderProgram.isSome then true else f.autoUpdate) ||
        anyShader rest) = (f.autoUpdate || anyShader (c :: rest)) := by
      cases hs : c.stateOf.shaderProgram.isSome <;>
        cases f.autoUpdate <;> simp [anyShader, List.any_cons, hs]
    rw [hb]

/-- After its share of phase 1 with the pool enabled and framed, a pool's
committed hash equals its running hash. -/
theorem predrawPool_fst_framed (i : Nat) (q : Pool) (f2 : FramedData)
    (hen : q.enabled = true) (hf : q.framed = some f2) :
    (predrawPool i q).1.framed = some { f2 with committed := f2.running } := by
  obtain ⟨fc, fr, fa, fd, fs⟩ := f2
  have hfb : q.hasFrameBuffer = true := by simp [Pool.hasFrameBuffer, hf]
  by_cases hmod : hasModification q = true
  · simp [predrawPool, hen, hfb, hmod, updateStatus, hf, apply_ite (f := Prod.fst)]
  · have hcr : fc = fr ∧ fa = false := by
      simpa [hasModification, hf] using hmod
    simp [predrawPool, hen, hfb, hmod, hf, hcr.1]

theorem predrawPool_no_mod (i : Nat) (q : Pool) (hmod : hasModification q = false) :
    predrawPool i q = (q, []) := by
  unfold predrawPool
  split
  · rw [hmod]
    simp
  · rfl

theorem compositePool_framed_eq (i : Nat) (q : Pool) (fd : FramedData)
    (hen : q.enabled = true) (hf : q.framed = some fd) :
    compositePool i q = ({ q with objects := [] }, [DrawEvent.composite i fd.dest fd.src]) := by
  unfold compositePool
  rw [hen]
  simp [hf]

/-- The framed data a pool carries into the next frame: the frame's content
hash is promoted to committed, the running hash holds the same value, and
auto-update is untouched (no shader among the calls). -/
theorem frameStep_framed (i : Nat) (calls : List PoolCall) (p : Pool) (f : FramedData)
    (hf : p.framed = some f) (hen : p.enabled = true) (hsh : anyShader calls = false) :
    (frameStep i calls p).1.framed =
      some ⟨hashOfCalls calls, hashOfCalls calls, f.autoUpdate, f.dest, f.src⟩ := by
  obtain ⟨fc, fr, fa, fd, fs⟩ := f
  have h0 : (usePool p).framed = some ⟨fc, 0, fa, fd, fs⟩ := by
    simp [usePool, resetCurrentStatus, hf]
  have h1 := foldl_calls_framed calls (usePool p) ⟨fc, 0, fa, fd, fs⟩ h0
  rw [hsh, Bool.or_false] at h1
  have hq1en : (calls.foldl (fun q c => applyPoolCall c q) (usePool p)).enabled = true := by
    rw [foldl_calls_enabled, usePool_enabled]
    exact hen
  have h2 := predrawPool_fst_framed i _ _ hq1en h1
  show (compositePool i (predrawPool i _).1).1.framed = _
  rw [composite_fst_framed]
  exact h2

/-- Phase 1 touches a pool's framebuffer only for enabled framed pools with
a modification. -/
theorem predrawPool_events (i : Nat) (p : Pool) :
    (predrawPool i p).2 ≠ [] →
    p.enabled = true ∧ p.hasFrameBuffer = true ∧ hasModification p = true := by
  unfold predrawPool
  split
  · rename_i h1
    split
    · rename_i h2
      dsimp only
      split
      · intro h
        exact absurd rfl h
      · intro _
        have h1x : p.enabled = true ∧ p.hasFrameBuffer = true := by simpa using h1
        exact ⟨h1x.1, h1x.2, h2⟩
    · intro h
      exact absurd rfl h
  · intro h
    exact absurd rfl h

/-- Claim C1: the cached framebuffer is rebuilt in the pre-draw phase of
`draw()` only when the pool is enabled and `hasModification()` holds; and a
framed enabled pool whose accumulated content is identical over two
consecutive frames (no shader, auto-update off) has `hasModification()`
false at the second frame's pre-draw, so that frame binds no framebuffer
and replays no DrawObject — the cached image is composited instead. -/
theorem claim_C1 :
    (∀ i p, (predrawPool i p).2 ≠ [] →
      p.enabled = true ∧ p.hasFrameBuffer = true ∧ hasModification p = true) ∧
    (∀ (i : Nat) (calls : List PoolCall) (p : Pool) (f : FramedData),
      p.framed = some f → p.enabled = true → f.autoUpdate = false →
      (∀ c ∈ calls, c.stateOf.shaderProgram = none) →
      hasModification
        (calls.foldl (fun q c => applyPoolCall c q) (usePool (frameStep i calls p).1)) =
          false ∧
      (∀ e ∈ (frameStep i calls (frameStep i calls p).1).2,
        e ≠ DrawEvent.fbBind i ∧ ∀ ob, e ≠ DrawEvent.replay i ob) ∧
      DrawEvent.composite i f.dest f.src ∈ (frameStep i calls (frameStep i calls p).1).2) := by
  constructor
  · exact predrawPool_events
  · intro i calls p f hf hen hauto hnosh
    have hsh : anyShader calls = false := anyShader_eq_false calls hnosh
    have hp1f : (frameStep i calls p).1.framed =
        some ⟨hashOfCalls calls, hashOfCalls calls, f.autoUpdate, f.dest, f.src⟩ :=
      frameStep_framed i calls p f hf hen hsh
    rw [hauto] at hp1f
    have hp1en : (frameStep i calls p).1.enabled = true := by
      rw [frameStep_enabled]
      exact hen
    have h0 : (usePool (frameStep i calls p).1).framed =
        some ⟨hashOfCalls calls, 0, false, f.dest, f.src⟩ := by
      simp [usePool, resetCurrentStatus, hp1f]
    have hq2f : (calls.foldl (fun q c => applyPoolCall c q)
        (usePool (frameStep i calls p).1)).framed =
        some ⟨hashOfCalls calls, hashOfCalls calls, false, f.dest, f.src⟩ := by
      have := foldl_calls_framed calls (usePool (frameStep i calls p).1)
        ⟨hashOfCalls calls, 0, false, f.dest, f.src⟩ h0
      rw [hsh] at this
      simpa [hashOfCalls] using this
    have hq2en : (calls.foldl (fun q c => applyPoolCall c q)
        (usePool (frameStep i calls p).1)).enabled = true := by
      rw [foldl_calls_enabled, usePool_enabled]
      exact hp1en
    have hmod2 : hasModification (calls.foldl (fun q c => applyPoolCall c q)
        (usePool (frameStep i calls p).1)) = false := by
      simp [hasModification, hq2f]
    have hpre := predrawPool_no_mod i _ hmod2
    have hcomp := compositePool_framed_eq i _
      ⟨hashOfCalls calls, hashOfCalls calls, false, f.dest, f.src⟩ hq2en hq2f
    have hev : (frameStep i calls (frameStep i calls p).1).2 =
        [DrawEvent.composite i f.dest f.src] := by
      show (predrawPool i _).2 ++ (compositePool i (predrawPool i _).1).2 = _
      rw [hpre, hcomp]
      rfl
    refine ⟨hmod2, ?_, ?_⟩
    · intro e he
      rw [hev, List.mem_singleton] at he
      subst he
      exact ⟨by simp, fun ob => by simp⟩
    · rw [hev]
      exact List.mem_singleton.mpr rfl

/-- A concrete enabled framed pool with a pending object and a dirty hash,
whose pre-draw phase emits events. -/
def witnessPredrawC1 : Pool :=
  { objects := [⟨{}, DrawMode.Triangles, [filledRectMethod { x2 := 1, y2 := 1 } {}], none⟩],
    enabled := true, framed := some { running := 5 } }

/-- A concrete enabled framed pool at frame start. -/
def witnessFramedC1 : Pool := { enabled := true, framed := some {} }

/-- A concrete one-call frame content without shader. -/
def witnessCallsC1 : List PoolCall :=
  [PoolCall.add {} (filledRectMethod { x2 := 1, y2 := 1 } {}) DrawMode.Triangles]

/-- Witness for C1 at a concrete framed pool and a one-call frame. -/
theorem claim_C1_witness :
    (witnessPredrawC1.enabled = true ∧ witnessPredrawC1.hasFrameBuffer = true ∧
      hasModification witnessPredrawC1 = true) ∧
    (hasModification
        (witnessCallsC1.foldl (fun q c => applyPoolCall c q)
          (usePool (frameStep 0 witnessCallsC1 witnessFramedC1).1)) = false ∧
      DrawEvent.composite 0 {} {} ∈
        (frameStep 0 witnessCallsC1 (frameStep 0 witnessCallsC1 witnessFramedC1).1).2) :=
  ⟨claim_C1.1 0 witnessPredrawC1 (by decide),
   (claim_C1.2 0 witnessCallsC1 witnessFramedC1 {} rfl rfl rfl
      (by intro c hc; fin_cases hc; rfl)).1,
   (claim_C1.2 0 witnessCallsC1 witnessFramedC1 {} rfl rfl rfl
      (by intro c hc; fin_cases hc; rfl)).2.2⟩

/-- A disabled pool with one pending object: the phase-2 `continue` skips
its clear. -/
def cexPoolC2 : Pool :=
  { objects := [⟨{}, DrawMode.Triangles, [filledRectMethod { x2 := 1, y2 := 1 } {}], none⟩],
    enabled := false }

/-- An enabled non-framed pool with one pending object. -/
def witnessEnabledC2 : Pool :=
  { objects := [⟨{}, DrawMode.Triangles, [filledRectMethod { x2 := 2, y2 := 2 } {}], none⟩],
    enabled := true }

/-- Counterexample to C2 as stated: after `draw()` on the single disabled
pool `cexPoolC2`, its object list is not empty — the `continue` in phase 2
skips the clear for disabled pools. -/
theorem claim_C2_cex :
    ¬ (∀ pools : List Pool, ∀ q ∈ (drawAll pools).1, q.objects = []) := by
  intro h
  have hmem : cexPoolC2 ∈ (drawAll [cexPoolC2]).1 := by decide
  have := h [cexPoolC2] cexPoolC2 hmem
  exact absurd this (by decide)

theorem compositePool_enabled_objects (i : Nat) (p : Pool) :
    (compositePool i p).1.enabled = true → (compositePool i p).1.objects = [] := by
  unfold compositePool
  split
  · split <;> intro _ <;> rfl
  · rename_i hdis
    intro h
    exact absurd h hdis

/-- Claim C2 (amended): after a single `DrawPool::draw()`, every enabled
pool's object list is empty; a disabled pool is skipped by the phase-2
`continue` before the clear, so its objects persist into the next frame. -/
theorem claim_C2 :
    ∀ (pools : List Pool), ∀ q ∈ (drawAll pools).1, q.enabled = true → q.objects = [] := by
  intro pools q hq hen
  simp only [drawAll, List.map_map] at hq
  obtain ⟨⟨i, p1⟩, hmem, rfl⟩ := List.mem_map.mp hq
  exact compositePool_enabled_objects i p1 hen

/-- Witness for C2 (amended) at a concrete two-pool configuration: the
enabled pool is cleared (while the disabled sibling demonstrably is not). -/
theorem claim_C2_witness :
    ({ objects := [], enabled := true } : Pool) ∈ (drawAll [witnessEnabledC2, cexPoolC2]).1 ∧
    ({ objects := [], enabled := true } : Pool).objects = [] :=
  ⟨by decide,
   claim_C2 [witnessEnabledC2, cexPoolC2] { objects := [], enabled := true } (by decide) rfl⟩

/-! ### The dedup scan never dereferences a null texture (C9) -/

/-- With a non-null new texture, the scan evaluates no null dereference as
long as the trailing object's texture is non-null or no prior method shares
the new method's dest. -/
theorem scanDeref_false (prevTex : Option Texture) (ss : Bool) (m : DrawMethod)
    (t : Texture) :
    ∀ ms : List DrawMethod,
      (prevTex.isSome = true ∨ ∀ pm ∈ ms, ¬(pm.dest = m.dest)) →
      scanDeref (some t) prevTex ss m ms = false := by
  intro ms
  induction ms with
  | nil => intro _; rfl
  | cons pm rest ih =>
    intro h
    have hrest : prevTex.isSome = true ∨ ∀ x ∈ rest, ¬(x.dest = m.dest) := by
      rcases h with h | h
      · exact Or.inl h
      · exact Or.inr fun x hx => h x (List.mem_cons_of_mem _ hx)
    by_cases hd : pm.dest = m.dest
    · have hprev : prevTex.isSome = true := by
        rcases h with h | h
        · exact h
        · exact absurd hd (h pm (List.mem_cons_self pm rest))
      obtain ⟨pt, hpt⟩ := Option.isSome_iff_exists.mp hprev
      subst hpt
      show (if pm.dest = m.dest then
          if ss && decide (pm.rects.2 = m.rects.2) then false
          else if t.solid then
            (if pt.canSuperimposed then false else scanDeref (some t) (some pt) ss m rest)
          else scanDeref (some t) (some pt) ss m rest
        else scanDeref (some t) (some pt) ss m rest) = false
      rw [if_pos hd]
      split
      · rfl
      · split
        · split
          · rfl
          · exact ih hrest
        · exact ih hrest
    · have hskip : scanDeref (some t) prevTex ss m (pm :: rest) =
          scanDeref (some t) prevTex ss m rest := by
        simp only [scanDeref]
        rw [if_neg hd]
      rw [hskip]
      exact ih hrest

theorem mem_of_mem_ite_eraseP {mm : DrawMethod} {c : Prop} [Decidable c]
    {l : List DrawMethod} {q : DrawMethod → Bool}
    (h : mm ∈ if c then l else l.eraseP q) : mm ∈ l := by
  split at h
  · exact h
  · exact List.mem_of_mem_eraseP h

/-- `add` preserves the texture invariant when the incoming call binds a
texture whenever its method carries a non-null dest. -/
theorem texInv_addObjects (st : PainterState) (m : DrawMethod) (dm : DrawMode)
    (l : List DrawObject) (hInv : TexInv l)
    (hm : m.dest.isNull = false → st.texture.isSome = true) :
    TexInv (addObjects st m dm l) := by
  rcases hl : l.getLast? with _ | prevObj
  · have hnil : l = [] := List.getLast?_eq_none_iff.mp hl
    subst hnil
    rw [addObjects_nil]
    intro o ho hex
    rw [List.mem_singleton] at ho
    subst ho
    obtain ⟨mm, hmm, hnn⟩ := hex
    rw [List.mem_singleton] at hmm
    subst hmm
    exact hm hnn
  · have hne : l ≠ [] := by
      intro hcontra
      rw [hcontra] at hl
      cases hl
    have hlast : l.getLast hne = prevObj := by
      have := List.getLast?_eq_getLast l hne
      rw [hl] at this
      exact (Option.some.injEq _ _).mp this.symm
    have hdec : l.dropLast ++ [prevObj] = l := by
      rw [← hlast]
      exact List.dropLast_concat_getLast hne
    rw [← hdec, addObjects_concat]
    have hInvPrev := hInv prevObj (List.mem_of_getLast?_eq_some hl)
    have hInvPre : TexInv l.dropLast := fun o ho hex =>
      hInv o (List.dropLast_subset l ho) hex
    split
    · rename_i hsame
      intro o ho hex
      rcases List.mem_append.mp ho with ho1 | ho2
      · exact hInvPre o ho1 hex
      · rw [List.mem_singleton] at ho2
        subst ho2
        obtain ⟨mm, hmm, hnn⟩ := hex
        rcases List.mem_append.mp hmm with hmm1 | hmm2
        · exact hInvPrev ⟨mm, mem_of_mem_ite_eraseP hmm1, hnn⟩
        · rw [List.mem_singleton] at hmm2
          subst hmm2
          show prevObj.state.texture.isSome = true
          rw [hsame]
          exact hm hnn
    · intro o ho hex
      rcases List.mem_append.mp ho with ho1 | ho2
      · exact hInvPre o ho1 hex
      · rcases List.mem_cons.mp ho2 with ho3 | ho4
        · subst ho3
          obtain ⟨mm, hmm, hnn⟩ := hex
          exact hInvPrev ⟨mm, mem_of_mem_ite_eraseP hmm, hnn⟩
        · rw [List.mem_singleton] at ho4
          subst ho4
          obtain ⟨mm, hmm, hnn⟩ := hex
          rw [List.mem_singleton] at hmm
          subst hmm
          exact hm hnn

/-- `addRepeated`'s search-and-append preserves the texture invariant. -/
theorem texInv_tryAppend (st : PainterState) (m : DrawMethod)
    (hm : m.dest.isNull = false → st.texture.isSome = true) :
    ∀ (l l2 : List DrawObject), tryAppend st m l = some l2 → TexInv l → TexInv l2 := by
  intro l
  induction l with
  | nil => intro l2 h _; simp [tryAppend] at h
  | cons o rest ih =>
    intro l2 h hInv
    simp only [tryAppend] at h
    have hInvRest : TexInv rest := fun x hx hex => hInv x (List.mem_cons_of_mem _ hx) hex
    by_cases ho : o.state = st
    · rw [if_pos ho] at h
      have hl2 := (Option.some.injEq _ _).mp h
      subst hl2
      intro x hx hex
      rcases List.mem_cons.mp hx with hx1 | hx2
      · subst hx1
        obtain ⟨mm, hmm, hnn⟩ := hex
        rcases List.mem_append.mp hmm with hmm1 | hmm2
        · exact hInv o (List.mem_cons_self o rest) ⟨mm, hmm1, hnn⟩
        · rw [List.mem_singleton] at hmm2
          subst hmm2
          show o.state.texture.isSome = true
          rw [ho]
          exact hm hnn
      · exact hInvRest x hx2 hex
    · rw [if_neg ho] at h
      obtain ⟨l2', h2, rfl⟩ := Option.map_eq_some'.mp h
      intro x hx hex
      rcases List.mem_cons.mp hx with hx1 | hx2
      · subst hx1
        exact hInv x (List.mem_cons_self x rest) hex
      · exact ih l2' h2 hInvRest x hx2 hex

/-- `addRepeated` with an arbitrary remembered index, as an object-list
equation. -/
theorem addRepeated_objects (st : PainterState) (m : DrawMethod) (dm : DrawMode) (p : Pool) :
    (addRepeated st m dm p).objects =
      match tryAppend st m (p.objects.drop
          (if p.indexToStartSearching = 0 then 0 else p.indexToStartSearching - 1)) with
      | some l2 => p.objects.take
          (if p.indexToStartSearching = 0 then 0 else p.indexToStartSearching - 1) ++ l2
      | none => p.objects ++ ([⟨st, dm, [m], none⟩] : List DrawObject) := by
  show (match tryAppend st m ((updateHash st m p).objects.drop
      (if (updateHash st m p).indexToStartSearching = 0 then 0
        else (updateHash st m p).indexToStartSearching - 1)) with
    | some l2 => (updateHash st m p).objects.take
        (if (updateHash st m p).indexToStartSearching = 0 then 0
          else (updateHash st m p).indexToStartSearching - 1) ++ l2
    | none => (updateHash st m p).objects ++ ([⟨st, dm, [m], none⟩] : List DrawObject)) = _
  rw [updateHash_objects, updateHash_index]

theorem texInv_addRepeated (st : PainterState) (m : DrawMethod) (dm : DrawMode) (p : Pool)
    (hInv : TexInv p.objects)
    (hm : m.dest.isNull = false → st.texture.isSome = true) :
    TexInv (addRepeated st m dm p).objects := by
  rw [addRepeated_objects]
  cases h : tryAppend st m (p.objects.drop
      (if p.indexToStartSearching = 0 then 0 else p.indexToStartSearching - 1)) with
  | none =>
    intro o ho hex
    rcases List.mem_append.mp ho with ho1 | ho2
    · exact hInv o ho1 hex
    · rw [List.mem_singleton] at ho2
      subst ho2
      obtain ⟨mm, hmm, hnn⟩ := hex
      rw [List.mem_singleton] at hmm
      subst hmm
      exact hm hnn
  | some l2 =>
    have hInvDrop : TexInv (p.objects.drop
        (if p.indexToStartSearching = 0 then 0 else p.indexToStartSearching - 1)) :=
      fun o ho hex => hInv o (List.drop_subset _ _ ho) hex
    have hInv2 := texInv_tryAppend st m hm _ l2 h hInvDrop
    intro o ho hex
    rcases List.mem_append.mp ho with ho1 | ho2
    · exact hInv o (List.take_subset _ _ ho1) hex
    · exact hInv2 o ho2 hex

/-- Every public entry point preserves the texture invariant. -/
theorem texInv_applyApi (c : ApiCall) (p : Pool) (h : TexInv p.objects) :
    TexInv (applyApi c p).objects := by
  cases c with
  | texturedRect painter dest tex src color od =>
    show TexInv (addTexturedRect painter dest tex src color od p).objects
    unfold addTexturedRect
    split
    · exact h
    · rw [add_objects_eq]
      exact texInv_addObjects _ _ _ _ h (fun _ => rfl)
  | upsideDownTexturedRect painter dest tex src color =>
    show TexInv (addUpsideDownTexturedRect painter dest tex src color p).objects
    unfold addUpsideDownTexturedRect
    split
    · exact h
    · rw [add_objects_eq]
      exact texInv_addObjects _ _ _ _ h (fun _ => rfl)
  | repeatedTexturedRect painter dest tex src color =>
    show TexInv (addRepeatedTexturedRect painter dest tex src color p).objects
    unfold addRepeatedTexturedRect
    split
    · exact h
    · exact texInv_addRepeated _ _ _ _ h (fun _ => rfl)
  | repeatedTexturedRepeatedRect painter dest tex src color =>
    show TexInv (addRepeatedTexturedRepeatedRect painter dest tex src color p).objects
    unfold addRepeatedTexturedRepeatedRect
    split
    · exact h
    · exact texInv_addRepeated _ _ _ _ h (fun _ => rfl)
  | filledRect painter dest src color =>
    show TexInv (addFilledRect painter dest src color p).objects
    unfold addFilledRect
    split
    · exact h
    · rw [add_objects_eq]
      exact texInv_addObjects _ _ _ _ h (fun hfalse => Bool.noConfusion hfalse)
  | repeatedFilledRect painter dest src color =>
    show TexInv (addRepeatedFilledRect painter dest src color p).objects
    unfold addRepeatedFilledRect
    split
    · exact h
    · exact texInv_addRepeated _ _ _ _ h (fun hfalse => Bool.noConfusion hfalse)
  | filledTriangle painter a b c color =>
    show TexInv (addFilledTriangle painter a b c color p).objects
    unfold addFilledTriangle
    split
    · exact h
    · rw [add_objects_eq]
      exact texInv_addObjects _ _ _ _ h (fun hfalse => Bool.noConfusion hfalse)
  | boundingRect painter dest color w =>
    show TexInv (addBoundingRect painter dest color w p).objects
    unfold addBoundingRect
    split
    · exact h
    · rw [add_objects_eq]
      exact texInv_addObjects _ _ _ _ h (fun hfalse => Bool.noConfusion hfalse)

theorem reachable_texInv (p : Pool) (h : Reachable p) : TexInv p.objects := by
  induction h with
  | base q hobj =>
    intro o ho _
    rw [hobj] at ho
    exact absurd ho (List.not_mem_nil o)
  | step c hr ih => exact texInv_applyApi c _ ih

theorem addDerefNull_null (st : PainterState) (m : DrawMethod) (p : Pool)
    (h : m.dest.isNull = true) : addDerefNull st m p = false := by
  unfold addDerefNull
  cases hg : p.objects.getLast? with
  | none => rfl
  | some prevObj =>
    dsimp only
    rw [if_pos h]

/-- On any pool satisfying the texture invariant, no entry point evaluates
a texture dereference on null. -/
theorem texInv_apiDerefNull (c : ApiCall) (p : Pool) (hInv : TexInv p.objects) :
    apiDerefNull c p = false := by
  cases c with
  | texturedRect painter dest tex src color od =>
    show (if dest.isEmpty || src.isEmpty then false
      else addDerefNull { generateState painter p with color := color, texture := some tex }
        (texturedRectMethod dest src od) p) = false
    split
    · rfl
    · unfold addDerefNull
      cases hg : p.objects.getLast? with
      | none => rfl
      | some prevObj =>
        dsimp only
        by_cases hnull : (texturedRectMethod dest src od).dest.isNull = true
        · rw [if_pos hnull]
        · rw [if_neg hnull]
          refine scanDeref_false prevObj.state.texture _ _ tex prevObj.drawMethods ?_
          by_cases hex : ∃ pm ∈ prevObj.drawMethods,
              pm.dest = (texturedRectMethod dest src od).dest
          · left
            obtain ⟨pm, hpm, hpd⟩ := hex
            apply hInv prevObj (List.mem_of_getLast?_eq_some hg)
            refine ⟨pm, hpm, ?_⟩
            rw [hpd]
            exact Bool.eq_false_iff.mpr hnull
          · right
            intro pm hpm hpd
            exact hex ⟨pm, hpm, hpd⟩
  | upsideDownTexturedRect painter dest tex src color =>
    show (if dest.isEmpty || src.isEmpty then false
      else addDerefNull { generateState painter p with color := color, texture := some tex }
        (upsideDownMethod dest src) p) = false
    split
    · rfl
    · exact addDerefNull_null _ _ _ rfl
  | repeatedTexturedRect painter dest tex src color => rfl
  | repeatedTexturedRepeatedRect painter dest tex src color => rfl
  | filledRect painter dest src color =>
    show (if dest.isEmpty then false
      else addDerefNull { generateState painter p with color := color }
        (filledRectMethod dest src) p) = false
    split
    · rfl
    · exact addDerefNull_null _ _ _ rfl
  | repeatedFilledRect painter dest src color => rfl
  | filledTriangle painter a b c color =>
    show (if a = b ∨ a = c ∨ b = c then false
      else addDerefNull { generateState painter p with color := color }
        (filledTriangleMethod a b c) p) = false
    split
    · rfl
    · exact addDerefNull_null _ _ _ rfl
  | boundingRect painter dest color w =>
    show (if dest.isEmpty || decide (w = 0) then false
      else addDerefNull { generateState painter p with color := color }
        (boundingRectMethod dest w) p) = false
    split
    · rfl
    · exact addDerefNull_null _ _ _ rfl

/-- Claim C9 (implicit): on every pool populated only through the public
`add*` entry points, the dedup scan's texture dereferences
(`state.texture->isOpaque()` and `prevObj.state.texture->canSuperimposed()`)
are never evaluated on a null texture: they are reached only through a
non-null dest match, only `addTexturedRect` produces non-null-dest methods,
and it always binds a non-null texture into the state. -/
theorem claim_C9 : ∀ p : Pool, Reachable p → ∀ c : ApiCall, apiDerefNull c p = false := by
  intro p hr c
  exact texInv_apiDerefNull c p (reachable_texInv p hr)

/-- Witness for C9: a second textured rect over a reachable single-object
pool triggers the scan and dereferences no null texture. -/
theorem claim_C9_witness :
    apiDerefNull
      (ApiCall.texturedRect {} { x2 := 4, y2 := 4 } ⟨3, true, true⟩ { x2 := 2, y2 := 2 } 9
        ⟨1, 1⟩)
      (applyApi
        (ApiCall.texturedRect {} { x2 := 4, y2 := 4 } ⟨3, true, true⟩ { x2 := 2, y2 := 2 } 9
          ⟨1, 1⟩)
        { enabled := true }) = false :=
  claim_C9 _
    (Reachable.step _ (Reachable.base { enabled := true } rfl)) _

end OT
